import Mathlib

/-!
# Service context construction and watch mapping

A shallow embedding of `controllers/servicecontext.go`, `controllers/watch.go` and
`pkg/controller/servicebindingrequest/watch.go`.

* Go maps are association lists: the order of the list is the order in which the map
  happens to be enumerated, a well-formed map has no key twice (`NodupKeys`).
* In-place mutation (`outputObj`, `envVars`, the controller of the watch mapper) is
  explicit state passing: a function returns the state it leaves behind next to its
  error.
* The API server, the type lookup and the binding handlers are outside the sources; they
  are the fields of `Cluster`, and every theorem holds for all of them.
* Logging has no effect on any returned value and is left out.
-/

/-! ## Go maps -/

/-- Value stored under key `k` (Go `m[k]` with the comma-ok form). -/
def getKey {V : Type} (m : List (String × V)) (k : String) : Option V :=
  match m with
  | [] => none
  | (k', v) :: rest => if k' = k then some v else getKey rest k

/-- Assignment `m[k] = v`: an existing entry is replaced where it stands, a new one is added. -/
def setKey {V : Type} (m : List (String × V)) (k : String) (v : V) : List (String × V) :=
  match m with
  | [] => [(k, v)]
  | (k', v') :: rest => if k' = k then (k, v) :: rest else (k', v') :: setKey rest k v

/-- Keys of a map in enumeration order (`for k := range m`). -/
def mapKeys {V : Type} (m : List (String × V)) : List String := m.map Prod.fst

/-- Well-formedness of a Go map: no key occurs twice. -/
def NodupKeys {V : Type} (m : List (String × V)) : Prop := (mapKeys m).Nodup

instance {V : Type} (m : List (String × V)) : Decidable (NodupKeys m) := by
  unfold NodupKeys; infer_instance

/-! ## Errors -/

/-- Modelled from the spec: error values, by the classes the code tells apart (their
declarations are outside src/): not found, empty annotation name, handler not found,
errors of the merge library, and everything else. -/
inductive Err where
  | notFound (msg : String)
  | emptyAnnotationName
  | handlerNotFound (msg : String)
  | mergeFailed (msg : String)
  | other (msg : String)
deriving DecidableEq

namespace errors

/-- Go `errors.IsNotFound(err)`; `none` is the nil error. -/
def IsNotFound : Option Err → Bool
  | some (.notFound _) => true
  | _ => false

end errors

namespace binding

/-- Modelled from the spec: `binding.IsErrEmptyAnnotationName` (package `binding` is not
under src/): the classification EmptyAnnotationName. -/
def IsErrEmptyAnnotationName : Err → Bool
  | .emptyAnnotationName => true
  | _ => false

/-- Modelled from the spec: `binding.IsErrHandlerNotFound`: the classification
HandlerNotFound. -/
def IsErrHandlerNotFound : Err → Bool
  | .handlerNotFound _ => true
  | _ => false

end binding

/-! ## Documents -/

/-- JSON-like content of `map[string]interface{}`: what `unstructured.Unstructured.Object`,
`RawData`, `Data` and `envVars` hold. Numbers are integers; every list is a `[]interface{}`. -/
inductive Value where
  | null
  | bool (b : Bool)
  | num (n : Int)
  | str (s : String)
  | list (xs : List Value)
  | obj (fields : List (String × Value))

/-- Go `map[string]interface{}`. -/
abbrev Doc := List (String × Value)

/-- Value reached by descending through nested maps along `path`. -/
def Value.getPath : Value → List String → Option Value
  | v, [] => some v
  | .obj fields, k :: path =>
    match getKey fields k with
    | some v => v.getPath path
    | none => none
  | _, _ :: _ => none

/-- A map value. -/
def Value.isObj : Value → Bool
  | .obj _ => true
  | _ => false

/-- A scalar: a boolean, a number or a string. -/
def Value.isScalar : Value → Bool
  | .bool _ => true
  | .num _ => true
  | .str _ => true
  | _ => false

mutual
/-- Well-formedness of a document value: no map in it, at any depth, has a key twice. -/
def Value.wf : Value → Bool
  | .obj fields => decide (NodupKeys fields) && wfFields fields
  | .list xs => wfList xs
  | _ => true
/-- Well-formedness of the values of a map. -/
def wfFields : List (String × Value) → Bool
  | [] => true
  | e :: rest => wfEntry e && wfFields rest
/-- Well-formedness of the value of an entry. -/
def wfEntry : String × Value → Bool
  | (_, v) => v.wf
/-- Well-formedness of the elements of a list. -/
def wfList : List Value → Bool
  | [] => true
  | v :: vs => v.wf && wfList vs
end

/-- Two document values with the same content, whatever the order in which the maps in
them, at any depth, are enumerated: equal scalars, lists with pairwise equivalent
elements, maps with the same keys and equivalent values under each key. -/
inductive Value.Equiv : Value → Value → Prop
  | null : Value.Equiv .null .null
  | bool (b : Bool) : Value.Equiv (.bool b) (.bool b)
  | num (n : Int) : Value.Equiv (.num n) (.num n)
  | str (s : String) : Value.Equiv (.str s) (.str s)
  | list (xs ys : List Value) (hlen : xs.length = ys.length)
      (helem : ∀ (i : Nat) (x y : Value), xs[i]? = some x → ys[i]? = some y → Value.Equiv x y) :
      Value.Equiv (.list xs) (.list ys)
  | obj (f g : List (String × Value))
      (hkeys : ∀ k, getKey f k = none ↔ getKey g k = none)
      (hvals : ∀ k v w, getKey f k = some v → getKey g k = some w → Value.Equiv v w) :
      Value.Equiv (.obj f) (.obj g)

/-- The same for a map element that may be missing. -/
def Value.EquivOpt : Option Value → Option Value → Prop
  | none, none => True
  | some v, some w => Value.Equiv v w
  | _, _ => False

/-! ## The merge library

`github.com/imdario/mergo` is imported by `servicecontext.go`; its code is not part of the
sources. The definitions of this section model its merge of two maps on JSON-like
documents, with the three options the repository passes. Not modelled: the static types
of slices (every list is a `[]interface{}`, so two lists can always be appended), nil
maps stored inside a document, and sharing between documents (a nested map that the merge
changes in place is returned as a new value). Inside the loop over the entries of the
source the source is never empty, so the test of the library on the emptiness of the
whole source map, the only place where `WithOverrideEmptySlice` matters, is always passed.
-/

namespace mergo

/-- Modelled from the spec: the options of a merge (`Config` of the imported library
`github.com/imdario/mergo`, not under src/), restricted to the ones this repository sets. -/
structure Config where
  Overwrite : Bool := false
  overwriteSliceWithEmptyValue : Bool := false
  AppendSlice : Bool := false

/-- Modelled from the spec: `mergo.WithOverride`, override on conflict. -/
def WithOverride (c : Config) : Config := { c with Overwrite := true }

/-- Modelled from the spec: `mergo.WithOverrideEmptySlice`. -/
def WithOverrideEmptySlice (c : Config) : Config := { c with overwriteSliceWithEmptyValue := true }

/-- Modelled from the spec: `mergo.WithAppendSlice`, append on conflict for lists. -/
def WithAppendSlice (c : Config) : Config := { c with AppendSlice := true }

/-- Modelled from the spec: `isEmptyValue` of the imported merge library (its code is not
under src/): the zero value of each kind, nil, the empty list and the empty map. -/
def isEmptyValue : Value → Bool
  | .null => true
  | .bool b => !b
  | .num n => n == 0
  | .str s => s.length == 0
  | .list xs => xs.isEmpty
  | .obj fields => fields.isEmpty

/-- Modelled from the spec: emptiness of a map element that may be missing. -/
def isEmptyElement : Option Value → Bool
  | none => true
  | some v => isEmptyValue v

/-- Modelled from the spec: the end of the per-key step of the merge library: a non-empty
destination element is kept when the source element is a map or a list; otherwise the
source element is stored when overwriting or when the destination element is missing or
empty. -/
def finishKey (cfg : Config) (key : String) (srcElement : Value) (isMapOrSlice : Bool)
    (dstElement : Option Value) (dst : Doc) : Doc :=
  if dstElement.isSome && !isEmptyElement dstElement && isMapOrSlice then dst
  else if cfg.Overwrite || dstElement.isNone || isEmptyElement dstElement then
    setKey dst key srcElement
  else dst

mutual
/-- Modelled from the spec: one key of the map merge of the imported library
`github.com/imdario/mergo` (not under src/; spec 4.3 gives its contract: override on
conflict for scalars, append on conflict for lists, prior state kept without override).
A nil source element is stored only when overwriting; a map is merged recursively into a
destination map and leaves any other destination element alone; a list replaces the
destination element (when overwriting, or when the destination map is still empty), is
appended to it (`AppendSlice`; appending to something that is neither missing, nil nor a
list is the error of two slices of different type) or leaves it; `finishKey` ends every
case but the nil one. The returned map is the destination as the in-place merge leaves
it, also when it fails. -/
def mergeElement (cfg : Config) (key : String) :
    (srcElement : Value) → (dst : Doc) → Doc × Option Err
  | .null, dst => if cfg.Overwrite then (setKey dst key .null, none) else (dst, none)
  | .obj sfs, dst =>
    match getKey dst key with
    | some (.obj dfs) =>
      match deepMergeMap cfg sfs dfs with
      | (dfs', some e) => (setKey dst key (.obj dfs'), some e)
      | (dfs', none) =>
        (finishKey cfg key (.obj sfs) true (some (.obj dfs')) (setKey dst key (.obj dfs')), none)
    | dstElement => (finishKey cfg key (.obj sfs) true dstElement dst, none)
  | .list sxs, dst =>
    let dstElement := getKey dst key
    let dstSlice : Value :=
      match dstElement with
      | none => .list []
      | some .null => .list []
      | some v => v
    if (cfg.Overwrite || dst.isEmpty) && !cfg.AppendSlice then
      (finishKey cfg key (.list sxs) true dstElement (setKey dst key (.list sxs)), none)
    else if cfg.AppendSlice then
      match dstSlice with
      | .list dxs =>
        (finishKey cfg key (.list sxs) true dstElement (setKey dst key (.list (dxs ++ sxs))), none)
      | _ => (dst, some (.mergeFailed "cannot append two slices with different type"))
    else
      (finishKey cfg key (.list sxs) true dstElement (setKey dst key dstSlice), none)
  | .bool b, dst => (finishKey cfg key (.bool b) false (getKey dst key) dst, none)
  | .num n, dst => (finishKey cfg key (.num n) false (getKey dst key) dst, none)
  | .str s, dst => (finishKey cfg key (.str s) false (getKey dst key) dst, none)
termination_by structural srcElement => srcElement
/-- Modelled from the spec: the merge of one entry of the source map. -/
def mergeEntry (cfg : Config) : (e : String × Value) → (dst : Doc) → Doc × Option Err
  | (key, srcElement), dst => mergeElement cfg key srcElement dst
termination_by structural e => e
/-- Modelled from the spec: `deepMerge` of the imported merge library on two maps: the
entries of `src` are merged into `dst` one after the other, the first error stops. -/
def deepMergeMap (cfg : Config) : (src : List (String × Value)) → (dst : Doc) → Doc × Option Err
  | [], dst => (dst, none)
  | e :: rest, dst =>
    match mergeEntry cfg e dst with
    | (dst', some err) => (dst', some err)
    | (dst', none) => deepMergeMap cfg rest dst'
termination_by structural src => src
end

/-- Modelled from the spec: `mergo.Merge(&dst, src, opts...)` of the imported library on two
`map[string]interface{}`: the map `dst` is left as, and the error. -/
def Merge (dst src : Doc) (opts : List (Config → Config)) : Doc × Option Err :=
  deepMergeMap (opts.foldl (fun c o => o c) {}) src dst

/-- Modelled from the spec: the same library merge on two `map[string]string` (spec 4.1:
for each key of the higher-priority source the lower-priority value is replaced
entirely): a string element is stored when overwriting or when the destination has no
value or the empty string under the key. -/
def deepMergeStrings (cfg : Config) :
    (src : List (String × String)) → (dst : List (String × String)) → List (String × String)
  | [], dst => dst
  | (key, srcElement) :: rest, dst =>
    let dstElement := getKey dst key
    if cfg.Overwrite || dstElement.isNone || dstElement == some "" then
      deepMergeStrings cfg rest (setKey dst key srcElement)
    else deepMergeStrings cfg rest dst

/-- Modelled from the spec: `mergo.Merge(&dst, src, opts...)` of the imported library on two
`map[string]string`; it has no failing case. -/
def MergeStrings (dst src : List (String × String)) (opts : List (Config → Config)) :
    List (String × String) × Option Err :=
  (deepMergeStrings (opts.foldl (fun c o => o c) {}) src dst, none)

end mergo

/-! ## Sorting -/

namespace sort

/-- Order of Go strings (bytewise, which on UTF-8 is the order of the code points). -/
def stringLE (a b : String) : Prop := a.toList ≤ b.toList

instance : DecidableRel stringLE := fun a b => by unfold stringLE; infer_instance

/-- Go `sort.Strings`: the keys in ascending order. -/
def Strings (keys : List String) : List String := List.insertionSort stringLE keys

end sort

/-! ## Kubernetes values -/

/-- Go `schema.GroupVersionKind`. -/
structure GroupVersionKind where
  Group : String
  Version : String
  Kind : String
deriving DecidableEq

/-- Go `schema.GroupVersionResource`. -/
structure GroupVersionResource where
  Group : String
  Version : String
  Resource : String
deriving DecidableEq

/-- Go `unstructured.Unstructured`. -/
structure Unstructured where
  Object : Doc

/-- Go `v1alpha1.Service`, the selector of a backing service. -/
structure Service where
  Group : String
  Version : String
  Kind : String
  Name : String
  Namespace : Option String
  Id : Option String
deriving DecidableEq

/-- Go `types.NamespacedName`. -/
structure NamespacedName where
  Namespace : String
  Name : String
deriving DecidableEq

/-- Go `reconcile.Request`. -/
structure Request where
  NamespacedName : NamespacedName
deriving DecidableEq

/-- Result of a binding handler: the patch of the object and the derived variables. -/
structure HandlerResult where
  RawData : Doc
  Data : Doc

/-- A handler built by `binding.NewSpecHandler`; `Handle` is what `h.Handle()` returns. -/
structure SpecHandler where
  Handle : Except Err HandlerResult

namespace controllers

/-- The `serviceContext` struct. -/
structure serviceContext where
  service : Unstructured
  envVars : Doc
  namingTemplate : String
  bindAsFiles : Bool
  id : Option String

/-- The collaborators whose code is outside the sources, fixed for one build: the type
lookup (`K8STypeLookup`), the lookups through the client, the accessors of
`Unstructured`, the binding handlers and the owned-resource helpers.
`CRDDescription` is the type of the OLM description, declared elsewhere. -/
structure Cluster (CRDDescription : Type) where
  ResourceForReferable : Service → Except Err GroupVersionResource
  KindForResource : GroupVersionResource → Except Err GroupVersionKind
  ResourceForKind : GroupVersionKind → Except Err GroupVersionResource
  findService : String → GroupVersionResource → String → Except Err Unstructured
  findServiceCRD : GroupVersionResource → Except Err Unstructured
  findCRDDescription : String → GroupVersionKind → Unstructured →
    Option CRDDescription × Option Err
  convertCRDDescriptionToAnnotations : Option CRDDescription → List (String × String)
  GetAnnotations : Unstructured → List (String × String)
  GetUID : Unstructured → String
  NewSpecHandler : String → String → Unstructured → Except Err SpecHandler
  getOwnedResources : String → String → Except Err (List Unstructured)
  buildOwnedResourceContexts : List Unstructured → String → Bool →
    Except Err (List serviceContext)

variable {CRDDescription : Type}

/-- Go `stringValueOrDefault`. -/
def stringValueOrDefault (val : Option String) (defaultVal : String) : String :=
  match val with
  | some s => if s.length > 0 then s else defaultVal
  | none => defaultVal

/-- Go `merge`: the patch `src` is merged into a fresh map with overriding, then the
accumulated document `dst` is merged into that without overriding. -/
def merge (dst src : Doc) : Except Err Doc :=
  let merged : Doc := []
  match mergo.Merge merged src [mergo.WithOverride, mergo.WithOverrideEmptySlice] with
  | (_, some err) => .error err
  | (merged, none) =>
    match mergo.Merge merged dst [] with
    | (_, some err) => .error err
    | (merged, none) => .ok merged

/-- Go `runHandler`. It changes `outputObj` and `envVars` in place, so the result is the
pair they are left as, next to the returned error. -/
def runHandler (c : Cluster CRDDescription) (obj outputObj : Unstructured)
    (key value : String) (envVars : Doc) : (Unstructured × Doc) × Option Err :=
  match c.NewSpecHandler key value obj with
  | .error err => ((outputObj, envVars), some err)
  | .ok h =>
    match h.Handle with
    | .error err => ((outputObj, envVars), some err)
    | .ok r =>
      match merge outputObj.Object r.RawData with
      | .error err => ((outputObj, envVars), some err)
      | .ok newObj =>
        let outputObj : Unstructured := { outputObj with Object := newObj }
        match mergo.Merge envVars r.Data [mergo.WithAppendSlice, mergo.WithOverride] with
        | (envVars, some err) => ((outputObj, envVars), some err)
        | (envVars, none) => ((outputObj, envVars), none)

/-- Lines 211 to 241 of `buildServiceContext`: the annotations of the description, of the
CRD and of the object itself, merged in that order with overriding. -/
def collectAnnotations (c : Cluster CRDDescription) (ns : String) (gvk : GroupVersionKind)
    (gvr : GroupVersionResource) (obj : Unstructured) : Except Err (List (String × String)) :=
  let anns : List (String × String) := []
  let fromCRD : Except Err (List (String × String)) :=
    match c.findServiceCRD gvr with
    | .error err => if !errors.IsNotFound (some err) then .error err else .ok anns
    | .ok crd =>
      match c.findCRDDescription ns gvk crd with
      | (crdDescription, err) =>
        if err.isSome && !errors.IsNotFound err then .error (err.getD (.other ""))
        else
          match mergo.MergeStrings anns (c.convertCRDDescriptionToAnnotations crdDescription)
              [mergo.WithOverride] with
          | (_, some err) => .error err
          | (anns, none) =>
            match mergo.MergeStrings anns (c.GetAnnotations crd) [mergo.WithOverride] with
            | (_, some err) => .error err
            | (anns, none) => .ok anns
  match fromCRD with
  | .error err => .error err
  | .ok anns =>
    match mergo.MergeStrings anns (c.GetAnnotations obj) [mergo.WithOverride] with
    | (_, some err) => .error err
    | (anns, none) => .ok anns

/-- Lines 248 to 253 of `buildServiceContext`: the keys of the annotations, sorted. -/
def sortedKeys (anns : List (String × String)) : List String :=
  sort.Strings (mapKeys anns)

/-- One round of the loop of lines 255 to 262: `runHandler` for key `k`; its error is only
logged, the objects are kept as `runHandler` left them. -/
def handleKey (c : Cluster CRDDescription) (obj : Unstructured) (anns : List (String × String))
    (st : Unstructured × Doc) (k : String) : Unstructured × Doc :=
  let v := (getKey anns k).getD ""
  (runHandler c obj st.1 k v st.2).1

/-- Lines 243 to 262 of `buildServiceContext`: `outputObj` and `envVars` after the loop. -/
def processAnnotations (c : Cluster CRDDescription) (obj : Unstructured)
    (anns : List (String × String)) : Unstructured × Doc :=
  let envVars : Doc := []
  let outputObj := obj
  (sortedKeys anns).foldl (handleKey c obj anns) (outputObj, envVars)

/-- Go `buildServiceContext`. -/
def buildServiceContext (c : Cluster CRDDescription) (ns : String) (gvk : GroupVersionKind)
    (name : String) (namingTemplate : String) (bindAsFiles : Bool) (id : Option String) :
    Except Err serviceContext :=
  match c.ResourceForKind gvk with
  | .error err => .error err
  | .ok gvr =>
    match c.findService ns gvr name with
    | .error err => .error err
    | .ok obj =>
      match collectAnnotations c ns gvk gvr obj with
      | .error err => .error err
      | .ok anns =>
        let r := processAnnotations c obj anns
        .ok { service := r.1, envVars := r.2, namingTemplate := namingTemplate,
              bindAsFiles := bindAsFiles, id := id }

/-- Go `findOwnedResourcesCtxs`. -/
def findOwnedResourcesCtxs (c : Cluster CRDDescription) (ns : String) (uid : String)
    (namingTemplate : String) (isBindAsFiles : Bool) : Except Err (List serviceContext) :=
  match c.getOwnedResources ns uid with
  | .error err => .error err
  | .ok ownedResources => c.buildOwnedResourceContexts ownedResources namingTemplate isBindAsFiles

/-- The loop `SELECTORS` of `buildServiceContexts`, from the selectors still to visit and
the contexts gathered so far. -/
def selectorsLoop (c : Cluster CRDDescription) (defaultNs : String)
    (includeServiceOwnedResources : Option Bool) (isBindAsFiles : Bool)
    (namingTemplate : String) :
    List Service → List serviceContext → Except Err (List serviceContext)
  | [], svcCtxs => .ok svcCtxs
  | s :: rest, svcCtxs =>
    let ns := stringValueOrDefault s.Namespace defaultNs
    match c.ResourceForReferable s with
    | .error err => .error err
    | .ok gvr =>
      match c.KindForResource gvr with
      | .error err => .error err
      | .ok gvk =>
        match buildServiceContext c ns gvk s.Name namingTemplate isBindAsFiles s.Id with
        | .error err =>
          if binding.IsErrEmptyAnnotationName err || binding.IsErrHandlerNotFound err then
            selectorsLoop c defaultNs includeServiceOwnedResources isBindAsFiles namingTemplate
              rest svcCtxs
          else .error err
        | .ok svcCtx =>
          let svcCtxs := svcCtxs ++ [svcCtx]
          if includeServiceOwnedResources == some true then
            match findOwnedResourcesCtxs c ns (c.GetUID svcCtx.service) namingTemplate
                isBindAsFiles with
            | .error err => .error err
            | .ok ownedResourcesCtxs =>
              selectorsLoop c defaultNs includeServiceOwnedResources isBindAsFiles namingTemplate
                rest (svcCtxs ++ ownedResourcesCtxs)
          else
            selectorsLoop c defaultNs includeServiceOwnedResources isBindAsFiles namingTemplate
              rest svcCtxs

/-- Go `buildServiceContexts`. -/
def buildServiceContexts (c : Cluster CRDDescription) (defaultNs : String)
    (selectors : List Service) (includeServiceOwnedResources : Option Bool)
    (isBindAsFiles : Bool) (namingTemplate : String) : Except Err (List serviceContext) :=
  selectorsLoop c defaultNs includeServiceOwnedResources isBindAsFiles namingTemplate selectors []

/-- Go `handler.MapObject`, by the namespace and name of its metadata. -/
structure MapObject where
  Namespace : String
  Name : String

/-- The loop of `Map` over the listed kinds: `AddWatchForGVK` for each, its error only
logged. -/
def addWatches {Ctrl : Type} (AddWatchForGVK : GroupVersionKind → Ctrl → Ctrl × Option Err) :
    List GroupVersionKind → Ctrl → Ctrl
  | [], ctrl => ctrl
  | gvk :: rest, ctrl => addWatches AddWatchForGVK rest (AddWatchForGVK gvk ctrl).1

/-- Go `csvToWatcherMapper.Map`. The controller `ctrl` is changed by `AddWatchForGVK`;
the result is the returned requests and the controller afterwards. -/
def csvToWatcherMapper.Map {Ctrl : Type}
    (listGVKsFromCSVNamespacedName : NamespacedName → Except Err (List GroupVersionKind))
    (AddWatchForGVK : GroupVersionKind → Ctrl → Ctrl × Option Err)
    (obj : MapObject) (ctrl : Ctrl) : List Request × Ctrl :=
  let namespacedName : NamespacedName := { Namespace := obj.Namespace, Name := obj.Name }
  match listGVKsFromCSVNamespacedName namespacedName with
  | .error _ => ([], ctrl)
  | .ok gvks => ([], addWatches AddWatchForGVK gvks ctrl)

end controllers

namespace servicebindingrequest

/-- Go `CSVToWatcherMapper.Map` of package `servicebindingrequest`. -/
def CSVToWatcherMapper.Map {Ctrl : Type}
    (ListGVKsFromCSVNamespacedName : NamespacedName → Except Err (List GroupVersionKind))
    (AddWatchForGVK : GroupVersionKind → Ctrl → Ctrl × Option Err)
    (obj : controllers.MapObject) (ctrl : Ctrl) : List Request × Ctrl :=
  let namespacedName : NamespacedName := { Namespace := obj.Namespace, Name := obj.Name }
  match ListGVKsFromCSVNamespacedName namespacedName with
  | .error _ => ([], ctrl)
  | .ok gvks =>
    ([], gvks.foldl (fun ctrl gvk => (AddWatchForGVK gvk ctrl).1) ctrl)

end servicebindingrequest

/-! ## The contract of `buildServiceContexts` in the words of the specification -/

namespace controllers

variable {CRDDescription : Type}

/-- Contexts one selector contributes to the list, in the words of the specification: its
own context, followed by the contexts of its owned resources when their inclusion is
enabled; nothing when the selector is skipped. -/
def selectorContexts (c : Cluster CRDDescription) (defaultNs : String)
    (includeServiceOwnedResources : Option Bool) (isBindAsFiles : Bool)
    (namingTemplate : String) (s : Service) : List serviceContext :=
  let ns := stringValueOrDefault s.Namespace defaultNs
  match c.ResourceForReferable s with
  | .error _ => []
  | .ok gvr =>
    match c.KindForResource gvr with
    | .error _ => []
    | .ok gvk =>
      match buildServiceContext c ns gvk s.Name namingTemplate isBindAsFiles s.Id with
      | .error _ => []
      | .ok svcCtx =>
        if includeServiceOwnedResources == some true then
          match findOwnedResourcesCtxs c ns (c.GetUID svcCtx.service) namingTemplate
              isBindAsFiles with
          | .error _ => [svcCtx]
          | .ok ownedResourcesCtxs => svcCtx :: ownedResourcesCtxs
        else [svcCtx]

/-- One level of a non-destructive union, in the words of the specification, with `m` the
merge of the accumulated map `dst` and the patch `src`: every key of `src` and every key of
`dst` that holds something other than null is a key of `m`; a key only in `dst` keeps the
value of `dst` unless that is null; a key only in `src` gets the value of `src`; a key
whose value in `dst` is not empty while its value in `src` is empty and not a map (zero
value, nil or empty list) keeps the value of `dst`; a key under which `dst` holds a map
while `src` holds a non-empty value that is not a map holds the value of `src`. -/
def UnionLevel (dst src m : Doc) : Prop :=
  (∀ k, getKey src k ≠ none → getKey m k ≠ none) ∧
  (∀ k v, getKey dst k = some v → v ≠ .null → getKey m k ≠ none) ∧
  (∀ k v, getKey dst k = some v → v ≠ .null → getKey src k = none → getKey m k = some v) ∧
  (∀ k, getKey dst k = none → getKey m k = getKey src k) ∧
  (∀ k d s, getKey dst k = some d → getKey src k = some s → mergo.isEmptyValue d = false →
    mergo.isEmptyValue s = true → s.isObj = false → getKey m k = some d) ∧
  (∀ k df s, getKey dst k = some (.obj df) → getKey src k = some s →
    mergo.isEmptyValue s = false → s.isObj = false → getKey m k = some s)

/-- The outcome of one selector for the build, in the words of the specification (success,
skip, fatal): a fatal error of its lookups, of its context or of its owned resources;
nothing when its context fails with an error classified as EmptyAnnotationName or
HandlerNotFound; otherwise its own context, followed by the contexts of its owned
resources when their inclusion is enabled. -/
def selectorOutcome (c : Cluster CRDDescription) (defaultNs : String)
    (includeServiceOwnedResources : Option Bool) (isBindAsFiles : Bool)
    (namingTemplate : String) (s : Service) : Except Err (List serviceContext) :=
  let ns := stringValueOrDefault s.Namespace defaultNs
  match c.ResourceForReferable s with
  | .error err => .error err
  | .ok gvr =>
    match c.KindForResource gvr with
    | .error err => .error err
    | .ok gvk =>
      match buildServiceContext c ns gvk s.Name namingTemplate isBindAsFiles s.Id with
      | .error err =>
        if binding.IsErrEmptyAnnotationName err || binding.IsErrHandlerNotFound err then .ok []
        else .error err
      | .ok svcCtx =>
        if includeServiceOwnedResources == some true then
          match findOwnedResourcesCtxs c ns (c.GetUID svcCtx.service) namingTemplate
              isBindAsFiles with
          | .error err => .error err
          | .ok ownedResourcesCtxs => .ok (svcCtx :: ownedResourcesCtxs)
        else .ok [svcCtx]

/-- The result-collecting iteration of the specification: the contributions of the items
in their order, unless one of them is fatal; the first fatal outcome is the result. -/
def gatherOutcomes :
    List (Except Err (List serviceContext)) → Except Err (List serviceContext)
  | [] => .ok []
  | .error err :: _ => .error err
  | .ok l :: rest =>
    match gatherOutcomes rest with
    | .error err => .error err
    | .ok ls => .ok (l ++ ls)

/-- Whether the handler of an annotation is built and runs without error: what `runHandler`
checks before it merges anything. -/
def handlerSucceeds (c : Cluster CRDDescription) (obj : Unstructured) (kv : String × String) :
    Bool :=
  match c.NewSpecHandler kv.1 kv.2 obj with
  | .error _ => false
  | .ok h =>
    match h.Handle with
    | .error _ => false
    | .ok _ => true

/-- The options `[mergo.WithOverride]` as a configuration. -/
def overrideConfig : mergo.Config := [mergo.WithOverride].foldl (fun c o => o c) {}

/-- A second run on the same cluster with its maps enumerated differently: `f` and `g`
stand in for `convertCRDDescriptionToAnnotations` and `GetAnnotations`, `h` for the
handlers. -/
def Cluster.reenumerate (c : Cluster CRDDescription)
    (f : Option CRDDescription → List (String × String))
    (g : Unstructured → List (String × String))
    (h : String → String → Unstructured → Except Err SpecHandler) : Cluster CRDDescription :=
  { c with convertCRDDescriptionToAnnotations := f, GetAnnotations := g, NewSpecHandler := h }

/-- Two families of handlers with the same behaviour: for every annotation and object both
fail to be built, or both fail when run, or both return well-formed results with the same
content (`Value.Equiv`), whatever the order in which their maps are enumerated. -/
def SameResults (h h' : String → String → Unstructured → Except Err SpecHandler) : Prop :=
  ∀ key value obj,
    match h key value obj, h' key value obj with
    | .error _, .error _ => True
    | .ok a, .ok b =>
      match a.Handle, b.Handle with
      | .error _, .error _ => True
      | .ok r, .ok r' =>
        (Value.obj r.RawData).wf = true ∧ (Value.obj r'.RawData).wf = true ∧
        (Value.obj r.Data).wf = true ∧ (Value.obj r'.Data).wf = true ∧
        Value.Equiv (.obj r.RawData) (.obj r'.RawData) ∧ Value.Equiv (.obj r.Data) (.obj r'.Data)
      | _, _ => False
    | _, _ => False

/-- No variable merge fails in the loop of `buildServiceContext` over the keys `keys` from
the objects `st`: every error `runHandler` returns is the error of a handler that could
not be built or run. -/
def variableMergesSucceed (c : Cluster CRDDescription) (obj : Unstructured)
    (anns : List (String × String)) : List String → Unstructured × Doc → Bool
  | [], _ => true
  | k :: keys, st =>
    let v := (getKey anns k).getD ""
    let r := runHandler c obj st.1 k v st.2
    (r.2.isNone || !handlerSucceeds c obj (k, v)) && variableMergesSucceed c obj anns keys r.1

/-- A controller that only records the kinds it is asked to watch, in the order of the
requests; `fails` decides which registrations report an error. -/
def recordingAddWatch (fails : GroupVersionKind → List GroupVersionKind → Option Err)
    (gvk : GroupVersionKind) (log : List GroupVersionKind) :
    List GroupVersionKind × Option Err :=
  (log ++ [gvk], fails gvk log)

end controllers

/-! ## A small cluster for the worked examples -/

namespace Example

open controllers

/-- The string-valued entries of a map, copied into a new map. -/
def stringEntries (fields : Doc) : List (String × String) :=
  fields.foldl
    (fun m kv =>
      match kv.2 with
      | .str s => setKey m kv.1 s
      | _ => m)
    []

/-- String-valued entries of `metadata.annotations`. -/
def annotationsOf (u : Unstructured) : List (String × String) :=
  match (Value.obj u.Object).getPath ["metadata", "annotations"] with
  | some (.obj fields) => stringEntries fields
  | _ => []

/-- String under `metadata.uid`. -/
def uidOf (u : Unstructured) : String :=
  match (Value.obj u.Object).getPath ["metadata", "uid"] with
  | some (.str s) => s
  | _ => ""

/-- The handlers of the example, by annotation key. -/
def specHandler (key value : String) (_obj : Unstructured) : Except Err SpecHandler :=
  if key = "a-hosts" then
    .ok { Handle := .ok { RawData := [], Data := [("hosts", .list [.str value])] } }
  else if key = "b-hosts" then
    .ok { Handle := .ok { RawData := [("status", .obj [("seen", .bool true)])],
                          Data := [("hosts", .list [.str value])] } }
  else if key = "c-user" then
    .ok { Handle := .ok { RawData := [], Data := [("user", .str value)] } }
  else if key = "d-user" then
    .ok { Handle := .ok { RawData := [("spec", .obj [("user", .str value)])],
                          Data := [("user", .str value)] } }
  else if key = "e-path" then
    .ok { Handle := .error (.other "path not found") }
  else if key = "f-users" then
    .ok { Handle := .ok { RawData := [], Data := [("user", .list [.str value])] } }
  else if key = "g-mixed" then
    .ok { Handle := .ok { RawData := [],
                          Data := [("user", .list [.str value]), ("hosts", .list [.str "h2"]),
                                   ("port", .num 1)] } }
  else if key = "" then .error .emptyAnnotationName
  else .error (.handlerNotFound key)

/-- The same handlers, the data of `g-mixed` enumerated in another order. -/
def specHandlerReordered (key value : String) (obj : Unstructured) : Except Err SpecHandler :=
  if key = "g-mixed" then
    .ok { Handle := .ok { RawData := [],
                          Data := [("port", .num 1), ("hosts", .list [.str "h2"]),
                                   ("user", .list [.str value])] } }
  else specHandler key value obj

/-- The database service of the example. -/
def db (annotations : Doc) : Unstructured :=
  { Object := [("kind", .str "Database"),
               ("metadata", .obj [("name", .str "db1"), ("uid", .str "u1"),
                                  ("annotations", .obj annotations)]),
               ("spec", .obj [("user", .str "root")])] }

/-- The CRD of the example. -/
def crd : Unstructured :=
  { Object := [("kind", .str "CustomResourceDefinition"),
               ("metadata", .obj [("annotations", .obj [("c-user", .str "crd")])])] }

/-- A cluster with one kind of service; the object named `n` carries the annotations
`objects n`. The lookups of the kinds `Unknown` and `Broken` fail. -/
def cluster (objects : String → Doc) : Cluster Unit where
  ResourceForReferable s :=
    if s.Kind = "Unknown" then .error (.other "no such kind") else .ok ⟨s.Group, s.Version, s.Kind⟩
  KindForResource gvr := .ok ⟨gvr.Group, gvr.Version, gvr.Resource⟩
  ResourceForKind gvk :=
    if gvk.Kind = "Broken" then .error (.handlerNotFound "Broken")
    else .ok ⟨gvk.Group, gvk.Version, gvk.Kind⟩
  findService _ _ name := if name = "absent" then .error (.notFound name) else .ok (db (objects name))
  findServiceCRD gvr := if gvr.Resource = "Plain" then .error (.notFound "crd") else .ok crd
  findCRDDescription _ _ _ := (some (), none)
  convertCRDDescriptionToAnnotations d :=
    match d with
    | some _ => [("a-hosts", "described"), ("c-user", "described")]
    | none => []
  GetAnnotations := annotationsOf
  GetUID := uidOf
  NewSpecHandler := specHandler
  getOwnedResources _ uid :=
    if uid = "u1" then .ok [db [("owner", .str "u1")]] else .ok []
  buildOwnedResourceContexts owned namingTemplate isBindAsFiles :=
    .ok (owned.map fun u =>
      { service := u, envVars := [], namingTemplate := namingTemplate,
        bindAsFiles := isBindAsFiles, id := none })

/-- Selector of the example. -/
def selector (kind name : String) : Service :=
  { Group := "example.org", Version := "v1", Kind := kind, Name := name,
    Namespace := none, Id := none }

/-- Context of a service of kind `Plain` (no CRD) without annotations. -/
def plainContext : serviceContext :=
  { service := db [], envVars := [], namingTemplate := "", bindAsFiles := false, id := none }

/-- Context of the resource owned by a service of the example. -/
def ownedContext : serviceContext :=
  { service := db [("owner", .str "u1")], envVars := [], namingTemplate := "",
    bindAsFiles := false, id := none }

/-- Kinds listed by the descriptor of the example. -/
def listedKinds : List GroupVersionKind :=
  [⟨"example.org", "v1", "Database"⟩, ⟨"example.org", "v1", "Queue"⟩,
   ⟨"example.org", "v1", "Database"⟩]

end Example

/-! ## Go maps: lemmas -/

section MapLemmas

variable {V : Type}

theorem getKey_setKey (m : List (String × V)) (k k' : String) (v : V) :
    getKey (setKey m k v) k' = if k = k' then some v else getKey m k' := by
  induction m with
  | nil => simp [setKey, getKey]
  | cons e rest ih =>
    obtain ⟨k0, v0⟩ := e
    by_cases h0 : k0 = k
    · subst h0
      by_cases h1 : k0 = k' <;> simp [setKey, getKey, h1]
    · by_cases h1 : k0 = k'
      · subst h1
        simp [setKey, getKey, h0, Ne.symm h0]
      · simp [setKey, getKey, h0, h1, ih]

theorem getKey_setKey_self (m : List (String × V)) (k : String) (v : V) :
    getKey (setKey m k v) k = some v := by
  simp [getKey_setKey]

theorem getKey_setKey_of_ne (m : List (String × V)) {k k' : String} (v : V) (h : k ≠ k') :
    getKey (setKey m k v) k' = getKey m k' := by
  simp [getKey_setKey, h]

theorem mem_mapKeys_setKey (m : List (String × V)) (k k' : String) (v : V) :
    k' ∈ mapKeys (setKey m k v) ↔ k' = k ∨ k' ∈ mapKeys m := by
  induction m with
  | nil => simp [setKey, mapKeys]
  | cons e rest ih =>
    obtain ⟨k0, v0⟩ := e
    by_cases h0 : k0 = k
    · subst h0
      simp [setKey, mapKeys]
    · simp only [mapKeys] at ih
      simp [setKey, mapKeys, h0, ih]
      tauto

theorem getKey_eq_none_iff (m : List (String × V)) (k : String) :
    getKey m k = none ↔ k ∉ mapKeys m := by
  induction m with
  | nil => simp [getKey, mapKeys]
  | cons e rest ih =>
    obtain ⟨k0, v0⟩ := e
    simp only [mapKeys] at ih
    by_cases h0 : k0 = k
    · subst h0
      simp [getKey, mapKeys]
    · simp [getKey, mapKeys, h0, ih, Ne.symm h0]

theorem getKey_isSome_iff (m : List (String × V)) (k : String) :
    (getKey m k).isSome = true ↔ k ∈ mapKeys m := by
  rw [← not_iff_not, ← getKey_eq_none_iff]
  cases getKey m k <;> simp

theorem nodupKeys_setKey (m : List (String × V)) (k : String) (v : V) (h : NodupKeys m) :
    NodupKeys (setKey m k v) := by
  induction m with
  | nil => simp [setKey, NodupKeys, mapKeys]
  | cons e rest ih =>
    obtain ⟨k0, v0⟩ := e
    have hrest : NodupKeys rest := by
      simp only [NodupKeys, mapKeys, List.map_cons, List.nodup_cons] at h
      exact h.2
    have hk0 : k0 ∉ mapKeys rest := by
      simp only [NodupKeys, mapKeys, List.map_cons, List.nodup_cons] at h
      exact h.1
    by_cases h0 : k0 = k
    · subst h0
      simpa [setKey, NodupKeys, mapKeys] using h
    · have hmem := mem_mapKeys_setKey rest k k0 v
      have ih' := ih hrest
      simp only [NodupKeys, mapKeys] at ih' hmem hk0 ⊢
      simp only [setKey, h0, if_false, List.map_cons, List.nodup_cons]
      refine ⟨?_, ih'⟩
      rw [hmem]
      rintro (h1 | h1)
      · exact h0 h1
      · exact hk0 h1

theorem nodupKeys_nil : NodupKeys ([] : List (String × V)) := by
  simp [NodupKeys, mapKeys]

theorem nodupKeys_cons {k : String} {v : V} {rest : List (String × V)} :
    NodupKeys ((k, v) :: rest) ↔ k ∉ mapKeys rest ∧ NodupKeys rest := by
  simp [NodupKeys, mapKeys]

theorem getKey_eq_some_iff_mem (m : List (String × V)) (h : NodupKeys m) (k : String) (v : V) :
    getKey m k = some v ↔ (k, v) ∈ m := by
  induction m with
  | nil => simp [getKey]
  | cons e rest ih =>
    obtain ⟨k0, v0⟩ := e
    rw [nodupKeys_cons] at h
    by_cases h0 : k0 = k
    · subst h0
      simp only [getKey, if_true, Option.some.injEq, List.mem_cons, Prod.mk.injEq, true_and]
      constructor
      · intro hv; exact Or.inl hv.symm
      · rintro (hv | hv)
        · exact hv.symm
        · exact absurd (List.mem_map_of_mem Prod.fst hv) h.1
    · simp only [getKey, h0, if_false, List.mem_cons, Prod.mk.injEq]
      rw [ih h.2]
      constructor
      · intro hv; exact Or.inr hv
      · rintro (hv | hv)
        · exact absurd hv.1.symm h0
        · exact hv

theorem getKey_eq_of_perm {m m' : List (String × V)} (hp : m.Perm m') (h : NodupKeys m)
    (k : String) : getKey m k = getKey m' k := by
  have h' : NodupKeys m' := (List.Perm.nodup_iff (hp.map Prod.fst)).1 h
  cases hv : getKey m' k with
  | none =>
    rw [getKey_eq_none_iff] at hv ⊢
    intro hk
    exact hv ((hp.map Prod.fst).mem_iff.1 hk)
  | some v =>
    rw [getKey_eq_some_iff_mem _ h'] at hv
    rw [getKey_eq_some_iff_mem _ h]
    exact hp.mem_iff.2 hv

end MapLemmas

theorem wf_obj_nodupKeys {fields : Doc} (h : (Value.obj fields).wf = true) : NodupKeys fields := by
  simp only [Value.wf, Bool.and_eq_true, decide_eq_true_eq] at h
  exact h.1

theorem wf_of_getKey {fields : Doc} (h : (Value.obj fields).wf = true) {k : String} {v : Value}
    (hv : getKey fields k = some v) : v.wf = true := by
  simp only [Value.wf, Bool.and_eq_true, decide_eq_true_eq] at h
  have hf := h.2
  clear h
  induction fields with
  | nil => simp [getKey] at hv
  | cons e rest ih =>
    obtain ⟨k0, v0⟩ := e
    simp only [wfFields, wfEntry, Bool.and_eq_true] at hf
    by_cases h0 : k0 = k
    · simp only [getKey, h0, if_true, Option.some.injEq] at hv
      subst hv
      exact hf.1
    · simp only [getKey, h0, if_false] at hv
      exact ih hv hf.2


/-! ## Sorting: lemmas -/

namespace sort

theorem stringLE_iff (a b : String) : stringLE a b ↔ a ≤ b :=
  String.le_iff_toList_le.symm

theorem stringLE_total : IsTotal String stringLE := ⟨fun a b => by
  simp only [stringLE_iff]; exact le_total a b⟩

theorem stringLE_trans : IsTrans String stringLE := ⟨fun a b c => by
  simp only [stringLE_iff]; exact le_trans⟩

theorem stringLE_antisymm : IsAntisymm String stringLE := ⟨fun a b => by
  simp only [stringLE_iff]; exact le_antisymm⟩

theorem Strings_perm (keys : List String) : (Strings keys).Perm keys :=
  List.perm_insertionSort _ _

theorem Strings_sorted (keys : List String) : List.Sorted stringLE (Strings keys) :=
  haveI := stringLE_total
  haveI := stringLE_trans
  List.sorted_insertionSort _ _

theorem Strings_eq_of_perm {l l' : List String} (h : l.Perm l') : Strings l = Strings l' :=
  haveI := stringLE_antisymm
  List.eq_of_perm_of_sorted (((Strings_perm l).trans h).trans (Strings_perm l').symm)
    (Strings_sorted l) (Strings_sorted l')

theorem Strings_strictly_ascending {keys : List String} (h : keys.Nodup) :
    List.Sorted (fun a b : String => a < b) (Strings keys) := by
  have hs := Strings_sorted keys
  have hn : (Strings keys).Nodup := (Strings_perm keys).nodup_iff.2 h
  unfold List.Sorted at hs ⊢
  have := List.Pairwise.and hs hn
  refine this.imp ?_
  intro a b hab
  rw [stringLE_iff] at hab
  exact lt_of_le_of_ne hab.1 hab.2

theorem Strings_filter (p : String → Bool) (keys : List String) :
    Strings (keys.filter p) = (Strings keys).filter p :=
  haveI := stringLE_antisymm
  List.eq_of_perm_of_sorted
    ((Strings_perm _).trans ((Strings_perm keys).filter p).symm)
    (Strings_sorted _) ((Strings_sorted keys).filter p)

end sort

/-! ## Merging string maps: lemmas -/

namespace mergo

/-- The options `[WithOverride]`. -/
theorem options_override :
    ([WithOverride].foldl (fun c o => o c) ({} : Config)).Overwrite = true := rfl

theorem nodupKeys_deepMergeStrings (cfg : Config) (src dst : List (String × String))
    (h : NodupKeys dst) : NodupKeys (deepMergeStrings cfg src dst) := by
  induction src generalizing dst with
  | nil => simpa [deepMergeStrings] using h
  | cons e rest ih =>
    obtain ⟨k0, v0⟩ := e
    simp only [deepMergeStrings]
    split
    · exact ih _ (nodupKeys_setKey _ _ _ h)
    · exact ih _ h

theorem mem_mapKeys_deepMergeStrings (cfg : Config) (hcfg : cfg.Overwrite = true)
    (src dst : List (String × String)) (k : String) :
    k ∈ mapKeys (deepMergeStrings cfg src dst) ↔ k ∈ mapKeys src ∨ k ∈ mapKeys dst := by
  induction src generalizing dst with
  | nil => simp [deepMergeStrings, mapKeys]
  | cons e rest ih =>
    obtain ⟨k0, v0⟩ := e
    simp only [deepMergeStrings, hcfg, Bool.true_or, if_true]
    rw [ih, mem_mapKeys_setKey]
    simp only [mapKeys, List.map_cons, List.mem_cons]
    tauto

theorem getKey_deepMergeStrings (cfg : Config) (hcfg : cfg.Overwrite = true)
    (src dst : List (String × String)) (hsrc : NodupKeys src) (k : String) :
    getKey (deepMergeStrings cfg src dst) k =
      match getKey src k with
      | some v => some v
      | none => getKey dst k := by
  induction src generalizing dst with
  | nil => simp [deepMergeStrings, getKey]
  | cons e rest ih =>
    obtain ⟨k0, v0⟩ := e
    rw [nodupKeys_cons] at hsrc
    simp only [deepMergeStrings, hcfg, Bool.true_or, if_true]
    rw [ih _ hsrc.2]
    by_cases h0 : k0 = k
    · subst h0
      have : getKey rest k0 = none := (getKey_eq_none_iff _ _).2 hsrc.1
      simp [this, getKey, getKey_setKey]
    · simp [getKey, h0, getKey_setKey]

end mergo

/-! ## Watch mapper -/

namespace controllers

variable {CRDDescription : Type}

theorem addWatches_eq_foldl {Ctrl : Type}
    (add : GroupVersionKind → Ctrl → Ctrl × Option Err) (gvks : List GroupVersionKind)
    (ctrl : Ctrl) :
    addWatches add gvks ctrl = gvks.foldl (fun st gvk => (add gvk st).1) ctrl := by
  induction gvks generalizing ctrl with
  | nil => rfl
  | cons g rest ih => simp [addWatches, ih]

theorem foldl_recordingAddWatch (fails : GroupVersionKind → List GroupVersionKind → Option Err)
    (gvks log : List GroupVersionKind) :
    gvks.foldl (fun st gvk => (recordingAddWatch fails gvk st).1) log = log ++ gvks := by
  induction gvks generalizing log with
  | nil => simp
  | cons g rest ih =>
    rw [List.foldl_cons, show (recordingAddWatch fails g log).1 = log ++ [g] from rfl, ih]
    simp

/-- C9: both `Map` functions return no reconcile request, whatever the lookup of the
descriptor yields; when the lookup yields kinds, the controller is left as after
`AddWatchForGVK` on each listed kind in list order, whatever errors the registrations
report, and a controller that records its requests has recorded exactly the listed kinds,
once each, in list order; when the lookup fails the controller is untouched. -/
theorem Map_registers_every_listed_kind {Ctrl : Type}
    (list : NamespacedName → Except Err (List GroupVersionKind))
    (add : GroupVersionKind → Ctrl → Ctrl × Option Err)
    (fails : GroupVersionKind → List GroupVersionKind → Option Err)
    (obj : MapObject) (ctrl : Ctrl) (log : List GroupVersionKind) :
    csvToWatcherMapper.Map list add obj ctrl =
        ([], match list ⟨obj.Namespace, obj.Name⟩ with
             | .ok gvks => gvks.foldl (fun st gvk => (add gvk st).1) ctrl
             | .error _ => ctrl) ∧
    servicebindingrequest.CSVToWatcherMapper.Map list add obj ctrl =
        ([], match list ⟨obj.Namespace, obj.Name⟩ with
             | .ok gvks => gvks.foldl (fun st gvk => (add gvk st).1) ctrl
             | .error _ => ctrl) ∧
    csvToWatcherMapper.Map list (recordingAddWatch fails) obj log =
        ([], match list ⟨obj.Namespace, obj.Name⟩ with
             | .ok gvks => log ++ gvks
             | .error _ => log) ∧
    servicebindingrequest.CSVToWatcherMapper.Map list (recordingAddWatch fails) obj log =
        ([], match list ⟨obj.Namespace, obj.Name⟩ with
             | .ok gvks => log ++ gvks
             | .error _ => log) := by
  unfold csvToWatcherMapper.Map servicebindingrequest.CSVToWatcherMapper.Map
  dsimp only
  generalize list ⟨obj.Namespace, obj.Name⟩ = r
  cases r <;> simp [addWatches_eq_foldl, foldl_recordingAddWatch]

/-! ## Selectors -/

theorem selectorsLoop_eq_gather (c : Cluster CRDDescription) (defaultNs : String)
    (incl : Option Bool) (baf : Bool) (nt : String) (sels : List Service)
    (acc : List serviceContext) :
    selectorsLoop c defaultNs incl baf nt sels acc =
      match gatherOutcomes (sels.map (selectorOutcome c defaultNs incl baf nt)) with
      | .error err => .error err
      | .ok l => .ok (acc ++ l) := by
  induction sels generalizing acc with
  | nil => simp [selectorsLoop, gatherOutcomes]
  | cons s rest ih =>
    simp only [selectorsLoop, List.map_cons, selectorOutcome]
    cases c.ResourceForReferable s with
    | error e => simp [gatherOutcomes]
    | ok gvr =>
      simp only
      cases c.KindForResource gvr with
      | error e => simp [gatherOutcomes]
      | ok gvk =>
        simp only
        cases buildServiceContext c (stringValueOrDefault s.Namespace defaultNs) gvk s.Name nt baf
            s.Id with
        | error e =>
          simp only
          by_cases hskip :
              (binding.IsErrEmptyAnnotationName e || binding.IsErrHandlerNotFound e) = true
          · simp only [hskip, if_true, gatherOutcomes, ih acc]
            cases gatherOutcomes (rest.map (selectorOutcome c defaultNs incl baf nt)) <;> simp
          · simp [hskip, gatherOutcomes]
        | ok ctx =>
          simp only
          by_cases hincl : (incl == some true) = true
          · simp only [hincl, if_true]
            cases findOwnedResourcesCtxs c (stringValueOrDefault s.Namespace defaultNs)
                (c.GetUID ctx.service) nt baf with
            | error e => simp [gatherOutcomes]
            | ok owned =>
              simp only [gatherOutcomes, ih]
              cases gatherOutcomes (rest.map (selectorOutcome c defaultNs incl baf nt)) <;> simp
          · simp only [hincl, if_false, gatherOutcomes, ih]
            cases gatherOutcomes (rest.map (selectorOutcome c defaultNs incl baf nt)) <;> simp

theorem buildServiceContexts_eq_gather (c : Cluster CRDDescription) (defaultNs : String)
    (incl : Option Bool) (baf : Bool) (nt : String) (sels : List Service) :
    buildServiceContexts c defaultNs sels incl baf nt =
      gatherOutcomes (sels.map (selectorOutcome c defaultNs incl baf nt)) := by
  rw [buildServiceContexts, selectorsLoop_eq_gather]
  cases gatherOutcomes (sels.map (selectorOutcome c defaultNs incl baf nt)) <;> simp

theorem gatherOutcomes_ok_of_all_ok (outcomes : List (Except Err (List serviceContext)))
    (h : ∀ o ∈ outcomes, ∃ l, o = .ok l) : ∃ l, gatherOutcomes outcomes = .ok l := by
  induction outcomes with
  | nil => exact ⟨[], rfl⟩
  | cons o rest ih =>
    obtain ⟨l, hl⟩ := h o (List.mem_cons_self _ _)
    obtain ⟨ls, hls⟩ := ih fun o ho => h o (List.mem_cons_of_mem _ ho)
    subst hl
    exact ⟨l ++ ls, by simp [gatherOutcomes, hls]⟩

theorem gatherOutcomes_skip (pre post : List (Except Err (List serviceContext))) :
    gatherOutcomes (pre ++ .ok [] :: post) = gatherOutcomes (pre ++ post) := by
  induction pre with
  | nil =>
    simp only [List.nil_append, gatherOutcomes]
    cases gatherOutcomes post <;> simp
  | cons o rest ih =>
    cases o with
    | error e => simp [gatherOutcomes]
    | ok l =>
      rw [List.cons_append, List.cons_append]
      simp only [gatherOutcomes, ih]

theorem selectorsLoop_ok_eq (c : Cluster CRDDescription) (defaultNs : String)
    (incl : Option Bool) (baf : Bool) (nt : String) (sels : List Service)
    (acc l : List serviceContext)
    (h : selectorsLoop c defaultNs incl baf nt sels acc = .ok l) :
    l = acc ++ sels.flatMap (selectorContexts c defaultNs incl baf nt) := by
  induction sels generalizing acc with
  | nil =>
    simp only [selectorsLoop] at h
    cases h
    simp
  | cons s rest ih =>
    simp only [selectorsLoop] at h
    simp only [List.flatMap_cons, selectorContexts]
    cases hgvr : c.ResourceForReferable s with
    | error e => rw [hgvr] at h; cases h
    | ok gvr =>
      rw [hgvr] at h
      simp only at h ⊢
      cases hgvk : c.KindForResource gvr with
      | error e => rw [hgvk] at h; cases h
      | ok gvk =>
        rw [hgvk] at h
        simp only at h ⊢
        cases hctx : buildServiceContext c (stringValueOrDefault s.Namespace defaultNs) gvk s.Name
            nt baf s.Id with
        | error e =>
          rw [hctx] at h
          simp only at h ⊢
          split at h
          · simpa using ih acc h
          · cases h
        | ok ctx =>
          rw [hctx] at h
          simp only at h ⊢
          split at h
          · rename_i hincl
            rw [if_pos hincl]
            cases howned : findOwnedResourcesCtxs c (stringValueOrDefault s.Namespace defaultNs)
                (c.GetUID ctx.service) nt baf with
            | error e => rw [howned] at h; cases h
            | ok owned =>
              rw [howned] at h
              simp only at h ⊢
              simpa using ih _ h
          · rename_i hincl
            rw [if_neg hincl]
            simpa using ih _ h

/-- C6: when the context of a selector fails to build with an error classified as
EmptyAnnotationName or HandlerNotFound, that selector is skipped and contributes no
context, and `buildServiceContexts` does not fail on that account: its result is the
gathering of the outcomes of all the other selectors, those after the skipped one
included, in their order, so it fails only with the fatal error of another selector,
succeeds whenever no other selector is fatal, and a list it returns is the concatenation
of the contexts of all the other selectors. -/
theorem buildServiceContexts_skips_selector (c : Cluster CRDDescription) (defaultNs : String)
    (incl : Option Bool) (baf : Bool) (nt : String) (pre post : List Service) (s : Service)
    (gvr : GroupVersionResource) (gvk : GroupVersionKind) (e : Err)
    (hgvr : c.ResourceForReferable s = .ok gvr) (hgvk : c.KindForResource gvr = .ok gvk)
    (hctx : buildServiceContext c (stringValueOrDefault s.Namespace defaultNs) gvk s.Name nt baf
      s.Id = .error e)
    (hclass : binding.IsErrEmptyAnnotationName e = true ∨ binding.IsErrHandlerNotFound e = true) :
    selectorOutcome c defaultNs incl baf nt s = .ok [] ∧
    buildServiceContexts c defaultNs (pre ++ s :: post) incl baf nt =
      gatherOutcomes ((pre ++ post).map (selectorOutcome c defaultNs incl baf nt)) ∧
    ((∀ t ∈ pre ++ post, ∃ l, selectorOutcome c defaultNs incl baf nt t = .ok l) →
      ∃ l, buildServiceContexts c defaultNs (pre ++ s :: post) incl baf nt = .ok l) ∧
    (∀ l, buildServiceContexts c defaultNs (pre ++ s :: post) incl baf nt = .ok l →
      l = (pre ++ post).flatMap (selectorContexts c defaultNs incl baf nt)) ∧
    buildServiceContexts c defaultNs (pre ++ s :: post) incl baf nt =
      buildServiceContexts c defaultNs (pre ++ post) incl baf nt := by
  have hskip : (binding.IsErrEmptyAnnotationName e || binding.IsErrHandlerNotFound e) = true := by
    cases hclass with
    | inl h => simp [h]
    | inr h => simp [h]
  have hs : selectorOutcome c defaultNs incl baf nt s = .ok [] := by
    simp only [selectorOutcome, hgvr, hgvk, hctx, hskip, if_true]
  have hall : buildServiceContexts c defaultNs (pre ++ s :: post) incl baf nt =
      gatherOutcomes ((pre ++ post).map (selectorOutcome c defaultNs incl baf nt)) := by
    rw [buildServiceContexts_eq_gather, List.map_append, List.map_cons, hs, gatherOutcomes_skip,
      List.map_append]
  refine ⟨hs, hall, ?_, ?_, ?_⟩
  · intro hok
    rw [hall]
    apply gatherOutcomes_ok_of_all_ok
    intro o ho
    obtain ⟨t, ht, rfl⟩ := List.mem_map.1 ho
    exact hok t ht
  · intro l hl
    rw [hall, ← buildServiceContexts_eq_gather] at hl
    simpa using selectorsLoop_ok_eq c defaultNs incl baf nt (pre ++ post) [] l hl
  · rw [hall, buildServiceContexts_eq_gather]

/-- Witness of C6: the selector of kind `Broken` fails with HandlerNotFound and is skipped
between two selectors that build; the list holds the contexts of those two. -/
theorem buildServiceContexts_skips_selector_witness :
    (binding.IsErrEmptyAnnotationName (Err.handlerNotFound "Broken") = true ∨
      binding.IsErrHandlerNotFound (Err.handlerNotFound "Broken") = true) ∧
    buildServiceContexts (Example.cluster fun _ => []) "ns"
        ([Example.selector "Plain" "db1"] ++
          Example.selector "Broken" "x" :: [Example.selector "Plain" "db2"])
        (some true) false "" =
      .ok [Example.plainContext, Example.ownedContext, Example.plainContext,
           Example.ownedContext] ∧
    buildServiceContexts (Example.cluster fun _ => []) "ns"
        ([Example.selector "Plain" "db1"] ++
          Example.selector "Broken" "x" :: [Example.selector "Plain" "db2"])
        (some true) false "" =
      gatherOutcomes (([Example.selector "Plain" "db1"] ++ [Example.selector "Plain" "db2"]).map
        (selectorOutcome (Example.cluster fun _ => []) "ns" (some true) false "")) :=
  ⟨Or.inr rfl, rfl,
   (buildServiceContexts_skips_selector (Example.cluster fun _ => []) "ns" (some true) false ""
     [Example.selector "Plain" "db1"] [Example.selector "Plain" "db2"]
     (Example.selector "Broken" "x") ⟨"example.org", "v1", "Broken"⟩
     ⟨"example.org", "v1", "Broken"⟩ (Err.handlerNotFound "Broken") rfl rfl rfl
     (Or.inr rfl)).2.1⟩

theorem selectorContexts_length_le_one (c : Cluster CRDDescription) (defaultNs : String)
    (incl : Option Bool) (baf : Bool) (nt : String) (s : Service) (hincl : incl ≠ some true) :
    (selectorContexts c defaultNs incl baf nt s).length ≤ 1 := by
  have hne : (incl == some true) = false := by simpa using hincl
  unfold selectorContexts
  simp only [hne, Bool.false_eq_true, if_false]
  repeat' split
  all_goals simp

/-- C10: when `buildServiceContexts` succeeds, the returned list is the concatenation, in
the order of the selectors, of what each selector contributes (its own context, then the
contexts of its owned resources in the order the discovery returned them when inclusion
is enabled, nothing when it was skipped); when inclusion is unset or disabled and no
selector is skipped, the list has exactly one context per selector. -/
theorem buildServiceContexts_follows_selector_order (c : Cluster CRDDescription)
    (defaultNs : String) (incl : Option Bool) (baf : Bool) (nt : String)
    (sels : List Service) (l : List serviceContext)
    (h : buildServiceContexts c defaultNs sels incl baf nt = .ok l) :
    l = sels.flatMap (selectorContexts c defaultNs incl baf nt) ∧
    (incl ≠ some true →
      (∀ s ∈ sels, selectorContexts c defaultNs incl baf nt s ≠ []) →
      l.length = sels.length ∧
      l.map Option.some = sels.map fun s => (selectorContexts c defaultNs incl baf nt s).head?) := by
  have hl := selectorsLoop_ok_eq c defaultNs incl baf nt sels [] l h
  simp only [List.nil_append] at hl
  refine ⟨hl, fun hincl hskip => ?_⟩
  subst hl
  clear h
  induction sels with
  | nil => simp
  | cons s rest ih =>
    have h1 := selectorContexts_length_le_one c defaultNs incl baf nt s hincl
    have h2 := hskip s (List.mem_cons_self _ _)
    have ih' := ih fun t ht => hskip t (List.mem_cons_of_mem _ ht)
    match hs : selectorContexts c defaultNs incl baf nt s with
    | [] => exact absurd hs h2
    | [x] =>
      simp only [List.flatMap_cons, hs, List.singleton_append, List.length_cons, List.map_cons,
        List.head?_cons, ih'.1, ih'.2, and_self]
    | x :: y :: r => rw [hs] at h1; simp at h1

/-- Witness of C10: two selectors with inclusion of owned resources enabled give each
selector's context followed by its owned resource's; with inclusion unset they give one
context per selector. -/
theorem buildServiceContexts_follows_selector_order_witness :
    buildServiceContexts (Example.cluster fun _ => []) "ns"
        [Example.selector "Plain" "db1", Example.selector "Plain" "db2"] (some true) false "" =
      .ok [Example.plainContext, Example.ownedContext, Example.plainContext,
           Example.ownedContext] ∧
    [Example.plainContext, Example.ownedContext, Example.plainContext, Example.ownedContext] =
      [Example.selector "Plain" "db1", Example.selector "Plain" "db2"].flatMap
        (selectorContexts (Example.cluster fun _ => []) "ns" (some true) false "") ∧
    [Example.plainContext, Example.plainContext].length =
      [Example.selector "Plain" "db1", Example.selector "Plain" "db2"].length :=
  ⟨rfl,
   (buildServiceContexts_follows_selector_order (Example.cluster fun _ => []) "ns" (some true)
      false "" [Example.selector "Plain" "db1", Example.selector "Plain" "db2"]
      [Example.plainContext, Example.ownedContext, Example.plainContext, Example.ownedContext]
      rfl).1,
   ((buildServiceContexts_follows_selector_order (Example.cluster fun _ => []) "ns" none
      false "" [Example.selector "Plain" "db1", Example.selector "Plain" "db2"]
      [Example.plainContext, Example.plainContext] rfl).2 (by decide)
      (by
        intro s hs h
        have hlen : (selectorContexts (Example.cluster fun _ => []) "ns" none false "" s).length
            = 0 := by rw [h]; rfl
        simp only [List.mem_cons, List.mem_singleton, List.not_mem_nil, or_false] at hs
        rcases hs with rfl | rfl
        · exact absurd hlen (by decide)
        · exact absurd hlen (by decide))).1⟩

end controllers

/-! ## Annotation layers -/

namespace controllers

variable {CRDDescription : Type}

theorem collectAnnotations_of_crd (c : Cluster CRDDescription) (ns : String)
    (gvk : GroupVersionKind) (gvr : GroupVersionResource) (obj crd : Unstructured)
    (desc : Option CRDDescription) (err : Option Err)
    (hcrd : c.findServiceCRD gvr = .ok crd)
    (hdesc : c.findCRDDescription ns gvk crd = (desc, err))
    (herr : err = none ∨ errors.IsNotFound err = true) :
    collectAnnotations c ns gvk gvr obj =
      .ok (mergo.deepMergeStrings overrideConfig (c.GetAnnotations obj)
        (mergo.deepMergeStrings overrideConfig (c.GetAnnotations crd)
          (mergo.deepMergeStrings overrideConfig
            (c.convertCRDDescriptionToAnnotations desc) []))) := by
  have hcond : (err.isSome && !errors.IsNotFound err) = false := by
    rcases herr with h | h
    · subst h; rfl
    · simp [h]
  simp only [collectAnnotations, hcrd, hdesc, hcond, mergo.MergeStrings]
  rfl

theorem collectAnnotations_nodupKeys (c : Cluster CRDDescription) (ns : String)
    (gvk : GroupVersionKind) (gvr : GroupVersionResource) (obj : Unstructured)
    (anns : List (String × String)) (h : collectAnnotations c ns gvk gvr obj = .ok anns) :
    NodupKeys anns := by
  simp only [collectAnnotations, mergo.MergeStrings] at h
  split at h
  · cases h
  · cases h
    exact mergo.nodupKeys_deepMergeStrings _ _ _ (by
      rename_i a heq
      split at heq
      · split at heq
        · cases heq
        · cases heq; exact nodupKeys_nil
      · split at heq
        · cases heq
        · cases heq
          exact mergo.nodupKeys_deepMergeStrings _ _ _
            (mergo.nodupKeys_deepMergeStrings _ _ _ nodupKeys_nil))

theorem buildServiceContext_of_annotations (c : Cluster CRDDescription) (ns : String)
    (gvk : GroupVersionKind) (gvr : GroupVersionResource) (name nt : String) (baf : Bool)
    (id : Option String) (obj : Unstructured) (anns : List (String × String))
    (hgvr : c.ResourceForKind gvk = .ok gvr) (hobj : c.findService ns gvr name = .ok obj)
    (hanns : collectAnnotations c ns gvk gvr obj = .ok anns) :
    buildServiceContext c ns gvk name nt baf id =
      .ok { service := (processAnnotations c obj anns).1,
            envVars := (processAnnotations c obj anns).2,
            namingTemplate := nt, bindAsFiles := baf, id := id } := by
  simp only [buildServiceContext, hgvr, hobj, hanns]

/-- C1: when the type definition is found, the annotation map `buildServiceContext` goes
on to process has as keys the union of the keys of the three layers, each key once, and
maps a key to the value of the instance layer if the instance has the key, otherwise to
the value of the type-definition layer if that has it, otherwise to the value of the
description layer; an empty string of a higher layer overrides like any other value. -/
theorem buildServiceContext_layers_of_annotations (c : Cluster CRDDescription) (ns : String)
    (gvk : GroupVersionKind) (gvr : GroupVersionResource) (name nt : String) (baf : Bool)
    (id : Option String) (obj crd : Unstructured)
    (desc : Option CRDDescription) (err : Option Err)
    (hgvr : c.ResourceForKind gvk = .ok gvr) (hobj : c.findService ns gvr name = .ok obj)
    (hcrd : c.findServiceCRD gvr = .ok crd)
    (hdesc : c.findCRDDescription ns gvk crd = (desc, err))
    (herr : err = none ∨ errors.IsNotFound err = true)
    (hD : NodupKeys (c.convertCRDDescriptionToAnnotations desc))
    (hT : NodupKeys (c.GetAnnotations crd)) (hI : NodupKeys (c.GetAnnotations obj)) :
    ∃ anns : List (String × String),
      collectAnnotations c ns gvk gvr obj = .ok anns ∧
      buildServiceContext c ns gvk name nt baf id =
        .ok { service := (processAnnotations c obj anns).1,
              envVars := (processAnnotations c obj anns).2,
              namingTemplate := nt, bindAsFiles := baf, id := id } ∧
      NodupKeys anns ∧
      (∀ k, k ∈ mapKeys anns ↔
        k ∈ mapKeys (c.convertCRDDescriptionToAnnotations desc) ∨
        k ∈ mapKeys (c.GetAnnotations crd) ∨ k ∈ mapKeys (c.GetAnnotations obj)) ∧
      (∀ k, getKey anns k =
        match getKey (c.GetAnnotations obj) k with
        | some v => some v
        | none =>
          match getKey (c.GetAnnotations crd) k with
          | some v => some v
          | none => getKey (c.convertCRDDescriptionToAnnotations desc) k) := by
  have hanns := collectAnnotations_of_crd c ns gvk gvr obj crd desc err hcrd hdesc herr
  refine ⟨_, hanns, buildServiceContext_of_annotations c ns gvk gvr name nt baf id obj _ hgvr hobj
    hanns, collectAnnotations_nodupKeys c ns gvk gvr obj _ hanns, ?_, ?_⟩
  · intro k
    rw [mergo.mem_mapKeys_deepMergeStrings _ rfl, mergo.mem_mapKeys_deepMergeStrings _ rfl,
      mergo.mem_mapKeys_deepMergeStrings _ rfl]
    simp only [mapKeys, List.map_nil, List.not_mem_nil, or_false]
    tauto
  · intro k
    rw [mergo.getKey_deepMergeStrings _ rfl _ _ hI, mergo.getKey_deepMergeStrings _ rfl _ _ hT,
      mergo.getKey_deepMergeStrings _ rfl _ _ hD]
    cases getKey (c.GetAnnotations obj) k <;> cases getKey (c.GetAnnotations crd) k <;>
      cases getKey (c.convertCRDDescriptionToAnnotations desc) k <;> simp [getKey]

/-- Witness of C1: the description gives `a-hosts` and `c-user`, the CRD overrides
`c-user`, and the instance overrides `c-user` with the empty string and adds `d-user`. -/
theorem buildServiceContext_layers_of_annotations_witness :
    ∃ anns : List (String × String),
      collectAnnotations (Example.cluster fun _ => [("c-user", .str ""), ("d-user", .str "i")])
          "ns" ⟨"example.org", "v1", "Database"⟩ ⟨"example.org", "v1", "Database"⟩
          (Example.db [("c-user", .str ""), ("d-user", .str "i")]) = .ok anns ∧
      getKey anns "a-hosts" = some "described" ∧ getKey anns "c-user" = some "" ∧
      getKey anns "d-user" = some "i" ∧ getKey anns "e-path" = none := by
  obtain ⟨anns, h, _, _, _, hget⟩ :=
    buildServiceContext_layers_of_annotations
      (Example.cluster fun _ => [("c-user", .str ""), ("d-user", .str "i")])
      "ns" ⟨"example.org", "v1", "Database"⟩ ⟨"example.org", "v1", "Database"⟩ "db1" "" false none
      (Example.db [("c-user", .str ""), ("d-user", .str "i")]) Example.crd (some ()) none
      rfl rfl rfl rfl (Or.inl rfl) (by decide) (by decide) (by decide)
  exact ⟨anns, h, by rw [hget]; rfl, by rw [hget]; rfl, by rw [hget]; rfl, by rw [hget]; rfl⟩

/-! ## Order of processing -/

theorem processAnnotations_congr (c c' : Cluster CRDDescription) (obj : Unstructured)
    (anns anns' : List (String × String)) (hc : c'.NewSpecHandler = c.NewSpecHandler)
    (hn : NodupKeys anns) (hn' : NodupKeys anns')
    (hget : ∀ k, getKey anns' k = getKey anns k) :
    sortedKeys anns' = sortedKeys anns ∧
    processAnnotations c' obj anns' = processAnnotations c obj anns := by
  have hkeys : sortedKeys anns' = sortedKeys anns := by
    apply sort.Strings_eq_of_perm
    rw [List.perm_ext_iff_of_nodup hn' hn]
    intro k
    rw [← getKey_isSome_iff, ← getKey_isSome_iff, hget]
  refine ⟨hkeys, ?_⟩
  have hstep : handleKey c' obj anns' = handleKey c obj anns := by
    funext st k
    simp only [handleKey, runHandler, hc, hget]
  simp only [processAnnotations, hkeys, hstep]

theorem getKey_layers_congr (src src' dst dst' : List (String × String))
    (hp : src'.Perm src) (hn : NodupKeys src) (hget : ∀ k, getKey dst' k = getKey dst k)
    (k : String) :
    getKey (mergo.deepMergeStrings overrideConfig src' dst') k =
      getKey (mergo.deepMergeStrings overrideConfig src dst) k := by
  have hn' : NodupKeys src' := (List.Perm.nodup_iff (hp.map Prod.fst)).2 hn
  rw [mergo.getKey_deepMergeStrings _ rfl _ _ hn', mergo.getKey_deepMergeStrings _ rfl _ _ hn,
    getKey_eq_of_perm hp hn' k, hget]

end controllers

/-! ## Merging documents: lemmas -/

namespace mergo

theorem getKey_finishKey_of_ne (cfg : Config) (key : String) (s : Value) (b : Bool)
    (d : Option Value) (dst : Doc) {k : String} (h : key ≠ k) :
    getKey (finishKey cfg key s b d dst) k = getKey dst k := by
  unfold finishKey
  split
  · rfl
  · split
    · exact getKey_setKey_of_ne _ _ h
    · rfl

theorem getKey_mergeElement_of_ne (cfg : Config) (key : String) (s : Value) (dst : Doc)
    {k : String} (h : key ≠ k) :
    getKey (mergeElement cfg key s dst).1 k = getKey dst k := by
  cases s with
  | null =>
    simp only [mergeElement]
    split
    · exact getKey_setKey_of_ne _ _ h
    · rfl
  | bool b => simp only [mergeElement, getKey_finishKey_of_ne _ _ _ _ _ _ h]
  | num n => simp only [mergeElement, getKey_finishKey_of_ne _ _ _ _ _ _ h]
  | str s => simp only [mergeElement, getKey_finishKey_of_ne _ _ _ _ _ _ h]
  | list xs =>
    simp only [mergeElement]
    split
    · simp only [getKey_finishKey_of_ne _ _ _ _ _ _ h, getKey_setKey_of_ne _ _ h]
    · split
      · split
        · simp only [getKey_finishKey_of_ne _ _ _ _ _ _ h, getKey_setKey_of_ne _ _ h]
        · rfl
      · simp only [getKey_finishKey_of_ne _ _ _ _ _ _ h, getKey_setKey_of_ne _ _ h]
  | obj fs =>
    simp only [mergeElement]
    split
    · split
      · simp only [getKey_setKey_of_ne _ _ h]
      · simp only [getKey_finishKey_of_ne _ _ _ _ _ _ h, getKey_setKey_of_ne _ _ h]
    · simp only [getKey_finishKey_of_ne _ _ _ _ _ _ h]

theorem getKey_deepMergeMap_of_not_mem (cfg : Config) (src dst : Doc) (k : String)
    (h : k ∉ mapKeys src) : getKey (deepMergeMap cfg src dst).1 k = getKey dst k := by
  induction src generalizing dst with
  | nil => simp [deepMergeMap]
  | cons e rest ih =>
    obtain ⟨k0, s0⟩ := e
    have hk0 : k0 ≠ k := by
      intro h0; apply h; simp [mapKeys, h0]
    have hrest : k ∉ mapKeys rest := by
      intro h0; apply h; simp only [mapKeys, List.map_cons, List.mem_cons]; exact Or.inr h0
    simp only [deepMergeMap, mergeEntry]
    have hloc := getKey_mergeElement_of_ne cfg k0 s0 dst hk0
    rcases hme : mergeElement cfg k0 s0 dst with ⟨dst', err⟩
    rw [hme] at hloc
    cases err with
    | some e => simpa using hloc
    | none =>
      simp only
      rw [ih _ hrest]
      exact hloc

theorem deepMergeMap_at_key (cfg : Config) (src dst : Doc) (k : String) (s : Value)
    (hn : NodupKeys src) (hs : getKey src k = some s)
    (hok : (deepMergeMap cfg src dst).2 = none) :
    ∃ dst' : Doc, getKey dst' k = getKey dst k ∧ (mergeElement cfg k s dst').2 = none ∧
      getKey (deepMergeMap cfg src dst).1 k = getKey (mergeElement cfg k s dst').1 k := by
  induction src generalizing dst with
  | nil => simp [getKey] at hs
  | cons e rest ih =>
    obtain ⟨k0, s0⟩ := e
    rw [nodupKeys_cons] at hn
    simp only [deepMergeMap, mergeEntry] at hok ⊢
    rcases hme : mergeElement cfg k0 s0 dst with ⟨dst1, err⟩
    rw [hme] at hok
    cases err with
    | some e => simp at hok
    | none =>
      simp only at hok ⊢
      by_cases h0 : k0 = k
      · subst h0
        simp only [getKey, if_true, Option.some.injEq] at hs
        subst hs
        refine ⟨dst, rfl, by rw [hme], ?_⟩
        rw [getKey_deepMergeMap_of_not_mem _ _ _ _ hn.1, hme]
      · simp only [getKey, h0, if_false] at hs
        obtain ⟨dst', h1, h2, h3⟩ := ih dst1 hn.2 hs hok
        refine ⟨dst', ?_, h2, h3⟩
        rw [h1]
        have := getKey_mergeElement_of_ne cfg k0 s0 dst h0
        rw [hme] at this
        exact this

end mergo

namespace mergo

theorem deepMergeMap_no_error (cfg : Config) (h : cfg.AppendSlice = false) (src dst : Doc) :
    (deepMergeMap cfg src dst).2 = none := by
  refine deepMergeMap.induct cfg
    (fun key s dst => (mergeElement cfg key s dst).2 = none)
    (fun src dst => (deepMergeMap cfg src dst).2 = none)
    (fun e dst => (mergeEntry cfg e dst).2 = none)
    ?_ ?_ ?_ ?_ ?_ ?_ ?_ ?_ ?_ ?_ ?_ ?_ ?_ ?_ ?_ ?_ src dst
  all_goals intros
  all_goals simp_all [mergeElement, deepMergeMap, mergeEntry]

end mergo

namespace mergo

theorem setKey_of_getKey_none {V : Type} (m : List (String × V)) (k : String) (v : V)
    (h : getKey m k = none) : setKey m k v = m ++ [(k, v)] := by
  induction m with
  | nil => rfl
  | cons e rest ih =>
    obtain ⟨k0, v0⟩ := e
    by_cases h0 : k0 = k
    · simp [getKey, h0] at h
    · simp only [getKey, h0, if_false] at h
      simp [setKey, h0, ih h]

theorem setKey_setKey {V : Type} (m : List (String × V)) (k : String) (v v' : V) :
    setKey (setKey m k v) k v' = setKey m k v' := by
  induction m with
  | nil => simp [setKey]
  | cons e rest ih =>
    obtain ⟨k0, v0⟩ := e
    by_cases h0 : k0 = k
    · simp [setKey, h0]
    · simp [setKey, h0, ih]

/-- The options of the first merge of `merge`. -/
theorem options_copy :
    [WithOverride, WithOverrideEmptySlice].foldl (fun c o => o c) ({} : Config) =
      { Overwrite := true, overwriteSliceWithEmptyValue := true, AppendSlice := false } := rfl

/-- The options of the merge of the variables. -/
theorem options_append :
    [WithAppendSlice, WithOverride].foldl (fun c o => o c) ({} : Config) =
      { Overwrite := true, overwriteSliceWithEmptyValue := false, AppendSlice := true } := rfl

theorem mergeElement_copy (cfg : Config) (hO : cfg.Overwrite = true)
    (hA : cfg.AppendSlice = false) (key : String) (s : Value) (dst : Doc)
    (h : getKey dst key = none) : mergeElement cfg key s dst = (setKey dst key s, none) := by
  cases s with
  | null => simp [mergeElement, hO]
  | bool b => simp [mergeElement, finishKey, hO, h]
  | num n => simp [mergeElement, finishKey, hO, h]
  | str s => simp [mergeElement, finishKey, hO, h]
  | list xs => simp [mergeElement, finishKey, hO, hA, h, setKey_setKey]
  | obj fs => simp [mergeElement, finishKey, hO, h]

theorem deepMergeMap_copy (cfg : Config) (hO : cfg.Overwrite = true)
    (hA : cfg.AppendSlice = false) (src dst : Doc) (h : NodupKeys (dst ++ src)) :
    deepMergeMap cfg src dst = (dst ++ src, none) := by
  induction src generalizing dst with
  | nil => simp [deepMergeMap]
  | cons e rest ih =>
    obtain ⟨k0, s0⟩ := e
    have hk0 : getKey dst k0 = none := by
      rw [getKey_eq_none_iff]
      intro hmem
      simp only [NodupKeys, mapKeys, List.map_append, List.map_cons] at h hmem
      have := (List.nodup_append.1 h).2.2
      exact this hmem (List.mem_cons_self _ _)
    simp only [deepMergeMap, mergeEntry, mergeElement_copy cfg hO hA k0 s0 dst hk0,
      setKey_of_getKey_none _ _ _ hk0]
    rw [ih]
    · simp
    · simpa using h

end mergo

namespace mergo

theorem getKey_mergeElement_default_obj (key : String) (df mf : Doc) (M : Doc)
    (hm : getKey M key = some (.obj mf)) :
    getKey (mergeElement {} key (.obj df) M).1 key =
      if (deepMergeMap {} df mf).1.isEmpty then some (.obj df)
      else some (.obj (deepMergeMap {} df mf).1) := by
  have hok := deepMergeMap_no_error {} rfl df mf
  rcases hR : deepMergeMap {} df mf with ⟨R, err⟩
  rw [hR] at hok
  simp only at hok
  subst hok
  simp only [mergeElement, hm, hR, finishKey, isEmptyElement, isEmptyValue]
  cases R with
  | nil => simp [getKey_setKey_self]
  | cons e rest => simp [getKey_setKey_self]

theorem getKey_mergeElement_default (key : String) (d : Value) (M : Doc) (hd : d ≠ .null)
    (hkind : d.isObj = false ∨ ∀ mf, getKey M key ≠ some (.obj mf)) :
    getKey (mergeElement {} key d M).1 key =
      if isEmptyElement (getKey M key) then some d else getKey M key := by
  cases d with
  | null => exact absurd rfl hd
  | bool b =>
    cases hm : getKey M key with
    | none => simp [mergeElement, finishKey, hm, isEmptyElement, getKey_setKey_self]
    | some v =>
      by_cases hv : isEmptyValue v = true <;>
        simp [mergeElement, finishKey, hm, isEmptyElement, getKey_setKey_self, hv]
  | num n =>
    cases hm : getKey M key with
    | none => simp [mergeElement, finishKey, hm, isEmptyElement, getKey_setKey_self]
    | some v =>
      by_cases hv : isEmptyValue v = true <;>
        simp [mergeElement, finishKey, hm, isEmptyElement, getKey_setKey_self, hv]
  | str s =>
    cases hm : getKey M key with
    | none => simp [mergeElement, finishKey, hm, isEmptyElement, getKey_setKey_self]
    | some v =>
      by_cases hv : isEmptyValue v = true <;>
        simp [mergeElement, finishKey, hm, isEmptyElement, getKey_setKey_self, hv]
  | list xs =>
    cases hm : getKey M key with
    | none =>
      cases M <;>
        simp [mergeElement, finishKey, hm, isEmptyElement, getKey_setKey_self, setKey_setKey]
    | some v =>
      have hne : M.isEmpty = false := by
        cases M with
        | nil => simp [getKey] at hm
        | cons e rest => rfl
      by_cases hv : isEmptyValue v = true
      · cases v <;>
          simp [mergeElement, finishKey, hm, isEmptyElement, getKey_setKey_self, hv, hne,
            setKey_setKey]
      · cases v <;>
          simp_all [mergeElement, finishKey, isEmptyElement, getKey_setKey_self, setKey_setKey,
            isEmptyValue]
  | obj df =>
    have hk : ∀ mf, getKey M key ≠ some (.obj mf) := by
      rcases hkind with h | h
      · simp [Value.isObj] at h
      · exact h
    cases hm : getKey M key with
    | none => simp [mergeElement, finishKey, hm, isEmptyElement, getKey_setKey_self]
    | some v =>
      cases v with
      | obj mf => exact absurd hm (hk mf)
      | null => simp [mergeElement, finishKey, hm, isEmptyElement, getKey_setKey_self, isEmptyValue]
      | bool b =>
        cases b <;>
          simp [mergeElement, finishKey, hm, isEmptyElement, getKey_setKey_self, isEmptyValue]
      | num n =>
        by_cases hn : n = 0 <;>
          simp [mergeElement, finishKey, hm, isEmptyElement, getKey_setKey_self, isEmptyValue, hn]
      | str s =>
        by_cases hn : s.length = 0 <;>
          simp [mergeElement, finishKey, hm, isEmptyElement, getKey_setKey_self, isEmptyValue, hn]
      | list xs =>
        cases xs <;>
          simp [mergeElement, finishKey, hm, isEmptyElement, getKey_setKey_self, isEmptyValue]

theorem getKey_mergeElement_default_null (key : String) (M : Doc) :
    (mergeElement {} key .null M).1 = M := by
  simp [mergeElement]

end mergo

namespace mergo

theorem getKey_deepMergeMap_default_null (D M : Doc) (k : String) (hn : NodupKeys D)
    (hd : getKey D k = some .null) :
    getKey (deepMergeMap {} D M).1 k = getKey M k := by
  obtain ⟨M', h1, _, h3⟩ :=
    deepMergeMap_at_key {} D M k .null hn hd (deepMergeMap_no_error {} rfl D M)
  rw [h3, getKey_mergeElement_default_null, h1]

theorem getKey_deepMergeMap_default (D M : Doc) (k : String) (d : Value) (hn : NodupKeys D)
    (hd : getKey D k = some d) (hnull : d ≠ .null)
    (hkind : d.isObj = false ∨ ∀ mf, getKey M k ≠ some (.obj mf)) :
    getKey (deepMergeMap {} D M).1 k =
      if isEmptyElement (getKey M k) then some d else getKey M k := by
  obtain ⟨M', h1, _, h3⟩ :=
    deepMergeMap_at_key {} D M k d hn hd (deepMergeMap_no_error {} rfl D M)
  rw [h3, getKey_mergeElement_default k d M' hnull (by rw [h1]; exact hkind), h1]

theorem getKey_deepMergeMap_default_obj (D M : Doc) (k : String) (df mf : Doc)
    (hn : NodupKeys D) (hd : getKey D k = some (.obj df)) (hm : getKey M k = some (.obj mf)) :
    getKey (deepMergeMap {} D M).1 k =
      if (deepMergeMap {} df mf).1.isEmpty then some (.obj df)
      else some (.obj (deepMergeMap {} df mf).1) := by
  obtain ⟨M', h1, _, h3⟩ :=
    deepMergeMap_at_key {} D M k (.obj df) hn hd (deepMergeMap_no_error {} rfl D M)
  rw [h3, getKey_mergeElement_default_obj k df mf M' (by rw [h1]; exact hm)]

theorem getKey_mergeElement_append_lists (key : String) (xs ys : List Value) (M : Doc)
    (hm : getKey M key = some (.list xs)) :
    getKey (mergeElement { Overwrite := true, AppendSlice := true } key (.list ys) M).1 key =
      some (.list (xs ++ ys)) := by
  cases xs <;>
    simp [mergeElement, finishKey, hm, isEmptyElement, isEmptyValue, getKey_setKey_self,
      setKey_setKey]

theorem getKey_mergeElement_append_scalar (key : String) (s : Value) (M : Doc)
    (hs : s.isScalar = true) :
    getKey (mergeElement { Overwrite := true, AppendSlice := true } key s M).1 key = some s := by
  cases s <;> simp [Value.isScalar] at hs <;>
    simp [mergeElement, finishKey, getKey_setKey_self]

theorem getKey_mergeElement_append_new (key : String) (s : Value) (M : Doc)
    (hm : getKey M key = none) :
    getKey (mergeElement { Overwrite := true, AppendSlice := true } key s M).1 key = some s := by
  cases s <;>
    simp [mergeElement, finishKey, hm, isEmptyElement, getKey_setKey_self, setKey_setKey]

end mergo

/-! ## Merging documents: what one key holds afterwards -/

namespace mergo

theorem getKey_finishKey (cfg : Config) (key : String) (s : Value) (b : Bool)
    (d : Option Value) (dst : Doc) :
    getKey (finishKey cfg key s b d dst) key =
      if (d.isSome && !isEmptyElement d && b) = true then getKey dst key
      else if (cfg.Overwrite || d.isNone || isEmptyElement d) = true then some s
      else getKey dst key := by
  unfold finishKey
  split
  · rfl
  · split
    · exact getKey_setKey_self _ _ _
    · rfl

theorem isEmptyElement_of_isEmpty {M : Doc} (h : M.isEmpty = true) (key : String) :
    getKey M key = none := by
  cases M with
  | nil => rfl
  | cons e rest => simp at h

theorem mergeElement_scalar (cfg : Config) (key : String) (s : Value) (M : Doc)
    (hs : s.isScalar = true) :
    (mergeElement cfg key s M).2 = none ∧
    getKey (mergeElement cfg key s M).1 key =
      if (cfg.Overwrite || isEmptyElement (getKey M key)) = true then some s
      else getKey M key := by
  cases s <;> simp [Value.isScalar] at hs <;>
    (simp only [mergeElement, getKey_finishKey, true_and]
     cases hm : getKey M key <;> cases cfg.Overwrite <;> simp [isEmptyElement])

theorem mergeElement_list_replace (cfg : Config) (key : String) (sxs : List Value) (M : Doc)
    (hA : cfg.AppendSlice = false) :
    (mergeElement cfg key (.list sxs) M).2 = none ∧
    getKey (mergeElement cfg key (.list sxs) M).1 key =
      if (cfg.Overwrite || isEmptyElement (getKey M key)) = true then some (.list sxs)
      else getKey M key := by
  cases hO : cfg.Overwrite
  · cases hE : M.isEmpty
    · cases hm : getKey M key with
      | none =>
        simp [mergeElement, hA, hO, hE, hm, getKey_finishKey, isEmptyElement, getKey_setKey_self]
      | some v =>
        cases v with
        | null =>
          simp [mergeElement, hA, hO, hE, hm, getKey_finishKey, isEmptyElement,
            getKey_setKey_self, isEmptyValue]
        | bool b =>
          cases b <;>
            simp [mergeElement, hA, hO, hE, hm, getKey_finishKey, isEmptyElement,
              getKey_setKey_self, isEmptyValue]
        | num n =>
          by_cases hn : n = 0 <;>
            simp [mergeElement, hA, hO, hE, hm, getKey_finishKey, isEmptyElement,
              getKey_setKey_self, isEmptyValue, hn]
        | str t =>
          by_cases hn : t.length = 0 <;>
            simp [mergeElement, hA, hO, hE, hm, getKey_finishKey, isEmptyElement,
              getKey_setKey_self, isEmptyValue, hn]
        | list xs =>
          cases xs <;>
            simp [mergeElement, hA, hO, hE, hm, getKey_finishKey, isEmptyElement,
              getKey_setKey_self, isEmptyValue]
        | obj f =>
          cases f <;>
            simp [mergeElement, hA, hO, hE, hm, getKey_finishKey, isEmptyElement,
              getKey_setKey_self, isEmptyValue]
    · have hm := isEmptyElement_of_isEmpty hE key
      simp [mergeElement, hA, hO, hE, hm, getKey_finishKey, isEmptyElement, getKey_setKey_self]
  · cases hm : getKey M key <;>
      simp [mergeElement, hA, hO, hm, getKey_finishKey, isEmptyElement, getKey_setKey_self]

theorem mergeElement_list_append_new (cfg : Config) (key : String) (sxs : List Value)
    (M : Doc) (hA : cfg.AppendSlice = true)
    (hm : getKey M key = none ∨ getKey M key = some .null) :
    (mergeElement cfg key (.list sxs) M).2 = none ∧
    getKey (mergeElement cfg key (.list sxs) M).1 key = some (.list sxs) := by
  rcases hm with hm | hm <;> cases hO : cfg.Overwrite <;>
    simp [mergeElement, hA, hO, hm, getKey_finishKey, isEmptyElement, getKey_setKey_self,
      isEmptyValue]

theorem mergeElement_list_append_list (cfg : Config) (key : String) (sxs dxs : List Value)
    (M : Doc) (hA : cfg.AppendSlice = true) (hm : getKey M key = some (.list dxs)) :
    (mergeElement cfg key (.list sxs) M).2 = none ∧
    getKey (mergeElement cfg key (.list sxs) M).1 key = some (.list (dxs ++ sxs)) := by
  cases dxs <;> cases hO : cfg.Overwrite <;>
    simp [mergeElement, hA, hO, hm, getKey_finishKey, isEmptyElement, getKey_setKey_self,
      isEmptyValue]

theorem mergeElement_list_append_error (cfg : Config) (key : String) (sxs : List Value)
    (M : Doc) (v : Value) (hA : cfg.AppendSlice = true) (hm : getKey M key = some v)
    (hnull : v ≠ .null) (hlist : ∀ dxs, v ≠ .list dxs) :
    (mergeElement cfg key (.list sxs) M).2 ≠ none := by
  cases v with
  | null => exact absurd rfl hnull
  | list dxs => exact absurd rfl (hlist dxs)
  | bool b => simp [mergeElement, hA, hm]
  | num n => simp [mergeElement, hA, hm]
  | str s => simp [mergeElement, hA, hm]
  | obj f => simp [mergeElement, hA, hm]

theorem mergeElement_obj_obj (cfg : Config) (key : String) (sfs dfs : Doc) (M : Doc)
    (hm : getKey M key = some (.obj dfs)) :
    (mergeElement cfg key (.obj sfs) M).2 = (deepMergeMap cfg sfs dfs).2 ∧
    ((deepMergeMap cfg sfs dfs).2 = none →
      getKey (mergeElement cfg key (.obj sfs) M).1 key =
        if (deepMergeMap cfg sfs dfs).1.isEmpty = true then some (.obj sfs)
        else some (.obj (deepMergeMap cfg sfs dfs).1)) := by
  rcases hR : deepMergeMap cfg sfs dfs with ⟨R, err⟩
  cases err with
  | some e => simp [mergeElement, hm, hR]
  | none =>
    cases R <;>
      simp [mergeElement, hm, hR, getKey_finishKey, isEmptyElement, isEmptyValue,
        getKey_setKey_self]

theorem mergeElement_obj_other (cfg : Config) (key : String) (sfs : Doc) (M : Doc)
    (hm : ∀ dfs, getKey M key ≠ some (.obj dfs)) :
    (mergeElement cfg key (.obj sfs) M).2 = none ∧
    getKey (mergeElement cfg key (.obj sfs) M).1 key =
      if isEmptyElement (getKey M key) = true then some (.obj sfs) else getKey M key := by
  cases hk : getKey M key with
  | none => simp [mergeElement, hk, getKey_finishKey, isEmptyElement]
  | some v =>
    cases v with
    | obj dfs => exact absurd hk (hm dfs)
    | null => simp [mergeElement, hk, getKey_finishKey, isEmptyElement, isEmptyValue]
    | bool b =>
      cases b <;> simp [mergeElement, hk, getKey_finishKey, isEmptyElement, isEmptyValue]
    | num n =>
      by_cases hn : n = 0 <;>
        simp [mergeElement, hk, getKey_finishKey, isEmptyElement, isEmptyValue, hn]
    | str s =>
      by_cases hn : s.length = 0 <;>
        simp [mergeElement, hk, getKey_finishKey, isEmptyElement, isEmptyValue, hn]
    | list xs =>
      cases xs <;> simp [mergeElement, hk, getKey_finishKey, isEmptyElement, isEmptyValue]

end mergo

/-! ## Equivalent documents -/

theorem Value.equivOpt_getKey {f g : Doc} (h : Value.Equiv (.obj f) (.obj g)) (k : String) :
    Value.EquivOpt (getKey f k) (getKey g k) := by
  cases h with
  | obj _ _ hkeys hvals =>
    cases hf : getKey f k with
    | none =>
      rw [(hkeys k).1 hf]
      trivial
    | some v =>
      cases hg : getKey g k with
      | none => rw [(hkeys k).2 hg] at hf; simp at hf
      | some w => exact hvals k v w hf hg

theorem Value.equiv_obj_of_getKey {f g : Doc}
    (h : ∀ k, Value.EquivOpt (getKey f k) (getKey g k)) : Value.Equiv (.obj f) (.obj g) := by
  refine Value.Equiv.obj f g ?_ ?_
  · intro k
    have hk := h k
    cases hf : getKey f k <;> cases hg : getKey g k <;>
      simp [hf, hg, Value.EquivOpt] at hk ⊢
  · intro k v w hf hg
    have hk := h k
    rw [hf, hg] at hk
    exact hk

theorem Value.equiv_isEmptyValue {v w : Value} (h : Value.Equiv v w) :
    mergo.isEmptyValue v = mergo.isEmptyValue w := by
  cases h with
  | null => rfl
  | bool b => rfl
  | num n => rfl
  | str s => rfl
  | list xs ys hlen _ =>
    cases xs <;> cases ys <;> simp [mergo.isEmptyValue] at hlen ⊢
  | obj f g hkeys _ =>
    cases f with
    | nil =>
      cases g with
      | nil => rfl
      | cons e rest =>
        have := (hkeys e.1).1 rfl
        simp [getKey] at this
    | cons e rest =>
      cases g with
      | nil =>
        have := (hkeys e.1).2 rfl
        simp [getKey] at this
      | cons e' rest' => rfl

theorem Value.equivOpt_isEmptyElement {a b : Option Value} (h : Value.EquivOpt a b) :
    mergo.isEmptyElement a = mergo.isEmptyElement b := by
  cases a <;> cases b <;> simp [Value.EquivOpt] at h
  · rfl
  · exact Value.equiv_isEmptyValue h

theorem Value.equivOpt_isSome {a b : Option Value} (h : Value.EquivOpt a b) :
    a.isSome = b.isSome := by
  cases a <;> cases b <;> simp [Value.EquivOpt] at h <;> rfl

theorem Value.equiv_list_append {xs ys as bs : List Value}
    (h1 : Value.Equiv (.list as) (.list bs)) (h2 : Value.Equiv (.list xs) (.list ys)) :
    Value.Equiv (.list (as ++ xs)) (.list (bs ++ ys)) := by
  cases h1 with
  | list _ _ hlen1 helem1 =>
    cases h2 with
    | list _ _ hlen2 helem2 =>
      refine Value.Equiv.list _ _ (by simp [hlen1, hlen2]) ?_
      intro i x y hx hy
      by_cases hi : i < as.length
      · rw [List.getElem?_append_left hi] at hx
        rw [List.getElem?_append_left (hlen1 ▸ hi)] at hy
        exact helem1 i x y hx hy
      · have hi' : as.length ≤ i := Nat.le_of_not_lt hi
        rw [List.getElem?_append_right hi'] at hx
        rw [List.getElem?_append_right (hlen1 ▸ hi')] at hy
        rw [← hlen1] at hy
        exact helem2 _ x y hx hy

theorem Value.equiv_list_nil_append {xs ys : List Value}
    (h : Value.Equiv (.list xs) (.list ys)) : Value.Equiv (.list ([] ++ xs)) (.list ys) := by
  simpa using h

namespace mergo

theorem deepMergeMap_ok_of_elements (cfg : Config) (src dst : Doc) (hn : NodupKeys src)
    (h : ∀ k s, getKey src k = some s → ∀ M, getKey M k = getKey dst k →
      (mergeElement cfg k s M).2 = none) :
    (deepMergeMap cfg src dst).2 = none := by
  induction src generalizing dst with
  | nil => rfl
  | cons e rest ih =>
    obtain ⟨k0, s0⟩ := e
    rw [nodupKeys_cons] at hn
    have h0 := h k0 s0 (by simp [getKey]) dst rfl
    simp only [deepMergeMap, mergeEntry]
    rcases hme : mergeElement cfg k0 s0 dst with ⟨dst1, err⟩
    rw [hme] at h0
    simp only at h0
    subst h0
    simp only
    apply ih dst1 hn.2
    intro k s hs M hM
    have hne : k0 ≠ k := by
      intro h1
      subst h1
      exact hn.1 ((getKey_isSome_iff _ _).1 (by rw [hs]; rfl))
    apply h k s (by simp [getKey, hne, hs]) M
    rw [hM]
    have := getKey_mergeElement_of_ne cfg k0 s0 dst hne
    rw [hme] at this
    exact this

theorem deepMergeMap_congr_of_elements (cfg : Config) (src src' dst dst' : Doc)
    (hn : NodupKeys src) (hn' : NodupKeys src')
    (hkeys : ∀ k, getKey src k = none ↔ getKey src' k = none)
    (hd : ∀ k, Value.EquivOpt (getKey dst k) (getKey dst' k))
    (hElem : ∀ k s s', getKey src k = some s → getKey src' k = some s' →
      ∀ M M', Value.EquivOpt (getKey M k) (getKey M' k) →
        (mergeElement cfg k s M).2 = none →
        (mergeElement cfg k s' M').2 = none ∧
        Value.EquivOpt (getKey (mergeElement cfg k s M).1 k)
          (getKey (mergeElement cfg k s' M').1 k))
    (hok : (deepMergeMap cfg src dst).2 = none) :
    (deepMergeMap cfg src' dst').2 = none ∧
    ∀ k, Value.EquivOpt (getKey (deepMergeMap cfg src dst).1 k)
      (getKey (deepMergeMap cfg src' dst').1 k) := by
  have hok' : (deepMergeMap cfg src' dst').2 = none := by
    apply deepMergeMap_ok_of_elements cfg src' dst' hn'
    intro k s' hs' M' hM'
    cases hs : getKey src k with
    | none => rw [(hkeys k).1 hs] at hs'; simp at hs'
    | some s =>
      obtain ⟨M, h1, h2, _⟩ := deepMergeMap_at_key cfg src dst k s hn hs hok
      exact (hElem k s s' hs hs' M M' (by rw [h1, hM']; exact hd k) h2).1
  refine ⟨hok', ?_⟩
  intro k
  cases hs : getKey src k with
  | none =>
    have hs' := (hkeys k).1 hs
    rw [getKey_deepMergeMap_of_not_mem _ _ _ _ ((getKey_eq_none_iff _ _).1 hs),
      getKey_deepMergeMap_of_not_mem _ _ _ _ ((getKey_eq_none_iff _ _).1 hs')]
    exact hd k
  | some s =>
    cases hs' : getKey src' k with
    | none => rw [(hkeys k).2 hs'] at hs; simp at hs
    | some s' =>
      obtain ⟨M, h1, h2, h3⟩ := deepMergeMap_at_key cfg src dst k s hn hs hok
      obtain ⟨M', h1', _, h3'⟩ := deepMergeMap_at_key cfg src' dst' k s' hn' hs' hok'
      rw [h3, h3']
      exact (hElem k s s' hs hs' M M' (by rw [h1, h1']; exact hd k) h2).2

end mergo

namespace mergo

theorem equivOpt_choice {a b a' b' : Option Value} {c c' : Bool} (hc : c = c')
    (ha : Value.EquivOpt a a') (hb : Value.EquivOpt b b') :
    Value.EquivOpt (if c = true then a else b) (if c' = true then a' else b') := by
  subst hc
  cases c <;> simpa

theorem mergeElement_congr (cfg : Config) {s s' : Value} (h : Value.Equiv s s') :
    s.wf = true → s'.wf = true → ∀ (key : String) (M M' : Doc),
      Value.EquivOpt (getKey M key) (getKey M' key) →
      (mergeElement cfg key s M).2 = none →
      (mergeElement cfg key s' M').2 = none ∧
      Value.EquivOpt (getKey (mergeElement cfg key s M).1 key)
        (getKey (mergeElement cfg key s' M').1 key) := by
  induction h with
  | null =>
    intro _ _ key M M' hm _
    cases hO : cfg.Overwrite
    · simpa [mergeElement, hO] using hm
    · simp [mergeElement, hO, getKey_setKey_self, Value.EquivOpt, Value.Equiv.null]
  | bool b =>
    intro _ _ key M M' hm _
    obtain ⟨h1, h2⟩ := mergeElement_scalar cfg key (.bool b) M rfl
    obtain ⟨h1', h2'⟩ := mergeElement_scalar cfg key (.bool b) M' rfl
    refine ⟨h1', ?_⟩
    rw [h2, h2']
    exact equivOpt_choice (by rw [Value.equivOpt_isEmptyElement hm])
      (Value.Equiv.bool b) hm
  | num n =>
    intro _ _ key M M' hm _
    obtain ⟨h1, h2⟩ := mergeElement_scalar cfg key (.num n) M rfl
    obtain ⟨h1', h2'⟩ := mergeElement_scalar cfg key (.num n) M' rfl
    refine ⟨h1', ?_⟩
    rw [h2, h2']
    exact equivOpt_choice (by rw [Value.equivOpt_isEmptyElement hm])
      (Value.Equiv.num n) hm
  | str t =>
    intro _ _ key M M' hm _
    obtain ⟨h1, h2⟩ := mergeElement_scalar cfg key (.str t) M rfl
    obtain ⟨h1', h2'⟩ := mergeElement_scalar cfg key (.str t) M' rfl
    refine ⟨h1', ?_⟩
    rw [h2, h2']
    exact equivOpt_choice (by rw [Value.equivOpt_isEmptyElement hm])
      (Value.Equiv.str t) hm
  | list xs ys hlen helem _ =>
    intro _ _ key M M' hm hok
    have hxy : Value.Equiv (.list xs) (.list ys) := Value.Equiv.list xs ys hlen helem
    cases hA : cfg.AppendSlice
    · obtain ⟨h1, h2⟩ := mergeElement_list_replace cfg key xs M hA
      obtain ⟨h1', h2'⟩ := mergeElement_list_replace cfg key ys M' hA
      refine ⟨h1', ?_⟩
      rw [h2, h2']
      exact equivOpt_choice (by rw [Value.equivOpt_isEmptyElement hm]) hxy hm
    · cases hM : getKey M key with
      | none =>
        cases hM' : getKey M' key with
        | some v' => rw [hM, hM'] at hm; exact absurd hm (by simp [Value.EquivOpt])
        | none =>
          obtain ⟨h1, h2⟩ := mergeElement_list_append_new cfg key xs M hA (Or.inl hM)
          obtain ⟨h1', h2'⟩ := mergeElement_list_append_new cfg key ys M' hA (Or.inl hM')
          refine ⟨h1', ?_⟩
          rw [h2, h2']
          exact hxy
      | some v =>
        cases hM' : getKey M' key with
        | none => rw [hM, hM'] at hm; exact absurd hm (by simp [Value.EquivOpt])
        | some v' =>
          rw [hM, hM'] at hm
          have hv : Value.Equiv v v' := hm
          cases hv with
          | null =>
            obtain ⟨h1, h2⟩ := mergeElement_list_append_new cfg key xs M hA (Or.inr hM)
            obtain ⟨h1', h2'⟩ := mergeElement_list_append_new cfg key ys M' hA (Or.inr hM')
            refine ⟨h1', ?_⟩
            rw [h2, h2']
            exact hxy
          | list dxs dys hl he =>
            obtain ⟨h1, h2⟩ := mergeElement_list_append_list cfg key xs dxs M hA hM
            obtain ⟨h1', h2'⟩ := mergeElement_list_append_list cfg key ys dys M' hA hM'
            refine ⟨h1', ?_⟩
            rw [h2, h2']
            exact Value.equiv_list_append (Value.Equiv.list dxs dys hl he) hxy
          | bool b =>
            exact absurd hok
              (mergeElement_list_append_error cfg key xs M _ hA hM (by simp) (by simp))
          | num n =>
            exact absurd hok
              (mergeElement_list_append_error cfg key xs M _ hA hM (by simp) (by simp))
          | str t =>
            exact absurd hok
              (mergeElement_list_append_error cfg key xs M _ hA hM (by simp) (by simp))
          | obj f g _ _ =>
            exact absurd hok
              (mergeElement_list_append_error cfg key xs M _ hA hM (by simp) (by simp))
  | obj f g hkeys hvals ih =>
    intro hw hw' key M M' hm hok
    have hfg : Value.Equiv (.obj f) (.obj g) := Value.Equiv.obj f g hkeys hvals
    by_cases hobj : ∃ dfs, getKey M key = some (.obj dfs)
    · obtain ⟨dfs, hM⟩ := hobj
      cases hM' : getKey M' key with
      | none => rw [hM, hM'] at hm; exact absurd hm (by simp [Value.EquivOpt])
      | some v' =>
        rw [hM, hM'] at hm
        have hv : Value.Equiv (.obj dfs) v' := hm
        cases hv with
        | obj _ dfs' hk hv2 =>
          have hdd : Value.Equiv (.obj dfs) (.obj dfs') := Value.Equiv.obj dfs dfs' hk hv2
          obtain ⟨h1, h2⟩ := mergeElement_obj_obj cfg key f dfs M hM
          obtain ⟨h1', h2'⟩ := mergeElement_obj_obj cfg key g dfs' M' hM'
          rw [h1] at hok
          obtain ⟨hok', hres⟩ := deepMergeMap_congr_of_elements cfg f g dfs dfs'
            (wf_obj_nodupKeys hw) (wf_obj_nodupKeys hw') hkeys
            (fun k => Value.equivOpt_getKey hdd k)
            (fun k v w hv hw2 M0 M0' hm0 hok0 =>
              ih k v w hv hw2 (wf_of_getKey hw hv) (wf_of_getKey hw' hw2) k M0 M0' hm0 hok0)
            hok
          refine ⟨by rw [h1']; exact hok', ?_⟩
          rw [h2 hok, h2' hok']
          have hR := Value.equiv_obj_of_getKey hres
          have hE := Value.equiv_isEmptyValue hR
          simp only [isEmptyValue] at hE
          exact equivOpt_choice hE hfg hR
    · have hM : ∀ dfs, getKey M key ≠ some (.obj dfs) := fun dfs h0 => hobj ⟨dfs, h0⟩
      have hM' : ∀ dfs, getKey M' key ≠ some (.obj dfs) := by
        intro dfs' h0
        rw [h0] at hm
        cases hk : getKey M key with
        | none => rw [hk] at hm; exact absurd hm (by simp [Value.EquivOpt])
        | some v =>
          rw [hk] at hm
          have hv : Value.Equiv v (.obj dfs') := hm
          cases hv with
          | obj dfs _ _ _ => exact hM dfs hk
      obtain ⟨h1, h2⟩ := mergeElement_obj_other cfg key f M hM
      obtain ⟨h1', h2'⟩ := mergeElement_obj_other cfg key g M' hM'
      refine ⟨h1', ?_⟩
      rw [h2, h2']
      exact equivOpt_choice (Value.equivOpt_isEmptyElement hm) hfg hm

theorem deepMergeMap_congr (cfg : Config) (src src' dst dst' : Doc)
    (hw : (Value.obj src).wf = true) (hw' : (Value.obj src').wf = true)
    (hs : Value.Equiv (.obj src) (.obj src')) (hd : Value.Equiv (.obj dst) (.obj dst'))
    (hok : (deepMergeMap cfg src dst).2 = none) :
    (deepMergeMap cfg src' dst').2 = none ∧
    Value.Equiv (.obj (deepMergeMap cfg src dst).1) (.obj (deepMergeMap cfg src' dst').1) := by
  cases hs with
  | obj _ _ hkeys hvals =>
    obtain ⟨h1, h2⟩ := deepMergeMap_congr_of_elements cfg src src' dst dst'
      (wf_obj_nodupKeys hw) (wf_obj_nodupKeys hw') hkeys
      (fun k => Value.equivOpt_getKey hd k)
      (fun k v w hv hw2 M0 M0' hm0 hok0 =>
        mergeElement_congr cfg (hvals k v w hv hw2) (wf_of_getKey hw hv) (wf_of_getKey hw' hw2)
          k M0 M0' hm0 hok0)
      hok
    exact ⟨h1, Value.equiv_obj_of_getKey h2⟩

end mergo

/-! ## Well-formed documents stay well-formed -/

theorem wf_obj_iff (f : Doc) : (Value.obj f).wf = true ↔ NodupKeys f ∧ wfFields f = true := by
  simp [Value.wf]

theorem wfFields_setKey (f : Doc) (k : String) (v : Value) (hf : wfFields f = true)
    (hv : v.wf = true) : wfFields (setKey f k v) = true := by
  induction f with
  | nil => simp [setKey, wfFields, wfEntry, hv]
  | cons e rest ih =>
    obtain ⟨k0, v0⟩ := e
    simp only [wfFields, wfEntry, Bool.and_eq_true] at hf
    by_cases h0 : k0 = k
    · simp [setKey, h0, wfFields, wfEntry, hv, hf.2]
    · simp [setKey, h0, wfFields, wfEntry, hf.1, ih hf.2]

theorem wf_setKey (f : Doc) (k : String) (v : Value) (hf : (Value.obj f).wf = true)
    (hv : v.wf = true) : (Value.obj (setKey f k v)).wf = true := by
  rw [wf_obj_iff] at hf ⊢
  exact ⟨nodupKeys_setKey _ _ _ hf.1, wfFields_setKey _ _ _ hf.2 hv⟩

theorem wf_list_append (xs ys : List Value) (hx : (Value.list xs).wf = true)
    (hy : (Value.list ys).wf = true) : (Value.list (xs ++ ys)).wf = true := by
  simp only [Value.wf] at hx hy ⊢
  induction xs with
  | nil => simpa using hy
  | cons x rest ih =>
    simp only [wfList, Bool.and_eq_true] at hx
    simp [wfList, hx.1, ih hx.2]

namespace mergo

theorem wf_finishKey (cfg : Config) (key : String) (s : Value) (b : Bool) (d : Option Value)
    (dst : Doc) (hs : s.wf = true) (hd : (Value.obj dst).wf = true) :
    (Value.obj (finishKey cfg key s b d dst)).wf = true := by
  unfold finishKey
  split
  · exact hd
  · split
    · exact wf_setKey _ _ _ hd hs
    · exact hd

theorem wf_dstSlice (dst : Doc) (key : String) (hd : (Value.obj dst).wf = true) :
    (match getKey dst key with
      | none => Value.list []
      | some Value.null => Value.list []
      | some v => v).wf = true := by
  cases hg : getKey dst key with
  | none => rfl
  | some v =>
    cases v with
    | null => rfl
    | list l => exact wf_of_getKey hd hg
    | bool b => rfl
    | num n => rfl
    | str t => rfl
    | obj f => exact wf_of_getKey hd hg

theorem wf_mergeElement_of_nested (cfg : Config) (key : String) (s : Value) (dst : Doc)
    (hs : s.wf = true) (hd : (Value.obj dst).wf = true)
    (hnest : ∀ sfs dfs, s = .obj sfs → getKey dst key = some (.obj dfs) →
      (Value.obj (deepMergeMap cfg sfs dfs).1).wf = true) :
    (Value.obj (mergeElement cfg key s dst).1).wf = true := by
  cases s with
  | null =>
    simp only [mergeElement]
    split
    · exact wf_setKey _ _ _ hd rfl
    · exact hd
  | bool b => exact wf_finishKey _ _ _ _ _ _ hs hd
  | num n => exact wf_finishKey _ _ _ _ _ _ hs hd
  | str t => exact wf_finishKey _ _ _ _ _ _ hs hd
  | list sxs =>
    simp only [mergeElement]
    split
    · exact wf_finishKey _ _ _ _ _ _ hs (wf_setKey _ _ _ hd hs)
    · split
      · have hsl := wf_dstSlice dst key hd
        split
        · rename_i dxs heq
          rw [heq] at hsl
          exact wf_finishKey _ _ _ _ _ _ hs (wf_setKey _ _ _ hd (wf_list_append _ _ hsl hs))
        · exact hd
      · exact wf_finishKey _ _ _ _ _ _ hs (wf_setKey _ _ _ hd (wf_dstSlice dst key hd))
  | obj sfs =>
    simp only [mergeElement]
    split
    · rename_i dfs hk
      have hR := hnest sfs dfs rfl hk
      split
      · rename_i dfs1 e heq
        rw [heq] at hR
        exact wf_setKey _ _ _ hd hR
      · rename_i dfs1 heq
        rw [heq] at hR
        exact wf_finishKey _ _ _ _ _ _ hs (wf_setKey _ _ _ hd hR)
    · exact wf_finishKey _ _ _ _ _ _ hs hd

theorem wf_deepMergeMap (cfg : Config) (src dst : Doc) (hs : wfFields src = true)
    (hd : (Value.obj dst).wf = true) : (Value.obj (deepMergeMap cfg src dst).1).wf = true := by
  refine deepMergeMap.induct cfg
    (fun key s dst => s.wf = true → (Value.obj dst).wf = true →
      (Value.obj (mergeElement cfg key s dst).1).wf = true)
    (fun src dst => wfFields src = true → (Value.obj dst).wf = true →
      (Value.obj (deepMergeMap cfg src dst).1).wf = true)
    (fun e dst => wfEntry e = true → (Value.obj dst).wf = true →
      (Value.obj (mergeEntry cfg e dst).1).wf = true)
    ?_ ?_ ?_ ?_ ?_ ?_ ?_ ?_ ?_ ?_ ?_ ?_ ?_ ?_ ?_ ?_ src dst hs hd
  · intro key dst _ hs hd
    exact wf_mergeElement_of_nested cfg key _ dst hs hd (fun _ _ h => by cases h)
  · intro key dst _ hs hd
    exact wf_mergeElement_of_nested cfg key _ dst hs hd (fun _ _ h => by cases h)
  · intro key sfs dst dfs hk dfs1 e _ ih hs hd
    refine wf_mergeElement_of_nested cfg key _ dst hs hd ?_
    intro sfs2 dfs2 h1 h2
    cases h1
    rw [hk] at h2
    cases h2
    exact ih ((wf_obj_iff _).1 hs).2 (wf_of_getKey hd hk)
  · intro key sfs dst dfs hk dfs1 _ ih hs hd
    refine wf_mergeElement_of_nested cfg key _ dst hs hd ?_
    intro sfs2 dfs2 h1 h2
    cases h1
    rw [hk] at h2
    cases h2
    exact ih ((wf_obj_iff _).1 hs).2 (wf_of_getKey hd hk)
  · intro key sfs dst hk hs hd
    refine wf_mergeElement_of_nested cfg key _ dst hs hd ?_
    intro sfs2 dfs2 _ h2
    exact absurd h2 (fun h => hk dfs2 h)
  · intro key sxs dst _ hs hd
    exact wf_mergeElement_of_nested cfg key _ dst hs hd (fun _ _ h => by cases h)
  · intro key sxs dst _ _ _ _ _ _ hs hd
    exact wf_mergeElement_of_nested cfg key _ dst hs hd (fun _ _ h => by cases h)
  · intro key sxs dst _ _ _ _ _ hs hd
    exact wf_mergeElement_of_nested cfg key _ dst hs hd (fun _ _ h => by cases h)
  · intro key sxs dst _ _ hs hd
    exact wf_mergeElement_of_nested cfg key _ dst hs hd (fun _ _ h => by cases h)
  · intro key b dst hs hd
    exact wf_mergeElement_of_nested cfg key _ dst hs hd (fun _ _ h => by cases h)
  · intro key n dst hs hd
    exact wf_mergeElement_of_nested cfg key _ dst hs hd (fun _ _ h => by cases h)
  · intro key t dst hs hd
    exact wf_mergeElement_of_nested cfg key _ dst hs hd (fun _ _ h => by cases h)
  · intro dst _ hd
    simpa [deepMergeMap] using hd
  · intro e rest dst dst1 err hme ih hs hd
    simp only [wfFields, Bool.and_eq_true] at hs
    simp only [deepMergeMap, hme]
    have := ih hs.1 hd
    rw [hme] at this
    exact this
  · intro e rest dst dst1 hme ih1 ih2 hs hd
    simp only [wfFields, Bool.and_eq_true] at hs
    simp only [deepMergeMap, hme]
    have := ih1 hs.1 hd
    rw [hme] at this
    exact ih2 hs.2 this
  · intro key s dst ih hs hd
    simp only [mergeEntry]
    exact ih (by simpa [wfEntry] using hs) hd

end mergo

theorem sizeOf_lt_of_getKey {f : Doc} {k : String} {v : Value} (h : getKey f k = some v) :
    sizeOf v < sizeOf f := by
  induction f with
  | nil => simp [getKey] at h
  | cons e rest ih =>
    obtain ⟨k0, v0⟩ := e
    by_cases h0 : k0 = k
    · simp only [getKey, h0, if_true, Option.some.injEq] at h
      subst h
      simp only [List.cons.sizeOf_spec, Prod.mk.sizeOf_spec]
      omega
    · simp only [getKey, h0, if_false] at h
      have := ih h
      simp only [List.cons.sizeOf_spec]
      omega

theorem sizeOf_lt_of_getElem? {xs : List Value} {i : Nat} {x : Value} (h : xs[i]? = some x) :
    sizeOf x < sizeOf xs := by
  have hmem : x ∈ xs := by
    rw [List.getElem?_eq_some_iff] at h
    obtain ⟨hi, rfl⟩ := h
    exact List.getElem_mem hi
  exact List.sizeOf_lt_of_mem hmem

theorem Value.equiv_refl_aux (n : Nat) : ∀ v : Value, sizeOf v = n → Value.Equiv v v := by
  induction n using Nat.strong_induction_on with
  | _ n ih =>
    intro v hn
    cases v with
    | null => exact .null
    | bool b => exact .bool b
    | num m => exact .num m
    | str s => exact .str s
    | list xs =>
      refine .list xs xs rfl ?_
      intro i x y hx hy
      rw [hx] at hy
      cases hy
      refine ih (sizeOf x) ?_ x rfl
      have := sizeOf_lt_of_getElem? hx
      rw [← hn]
      simp only [Value.list.sizeOf_spec]
      omega
    | obj f =>
      refine .obj f f (fun _ => Iff.rfl) ?_
      intro k x y hx hy
      rw [hx] at hy
      cases hy
      refine ih (sizeOf x) ?_ x rfl
      have := sizeOf_lt_of_getKey hx
      rw [← hn]
      simp only [Value.obj.sizeOf_spec]
      omega

theorem Value.equiv_refl (v : Value) : Value.Equiv v v :=
  Value.equiv_refl_aux (sizeOf v) v rfl

/-! ## Merging in `runHandler` -/

namespace controllers

variable {CRDDescription : Type}

theorem merge_eq (dst src : Doc) (hsrc : NodupKeys src) :
    merge dst src = .ok (mergo.deepMergeMap {} dst src).1 := by
  have hcopy := mergo.deepMergeMap_copy
    { Overwrite := true, overwriteSliceWithEmptyValue := true, AppendSlice := false } rfl rfl
    src [] (by simpa using hsrc)
  have hok := mergo.deepMergeMap_no_error {} rfl dst src
  simp only [merge, mergo.Merge, mergo.options_copy, hcopy, List.nil_append, List.foldl_nil]
  rcases hR : mergo.deepMergeMap {} dst src with ⟨R, err⟩
  rw [hR] at hok
  simp only at hok
  subst hok
  rfl

theorem runHandler_ok_merge (c : Cluster CRDDescription) (obj out out' : Unstructured)
    (key value : String) (env env' : Doc) (h : SpecHandler) (r : HandlerResult)
    (hh : c.NewSpecHandler key value obj = .ok h) (hr : h.Handle = .ok r)
    (hrun : runHandler c obj out key value env = ((out', env'), none)) :
    mergo.deepMergeMap { Overwrite := true, AppendSlice := true } r.Data env = (env', none) := by
  simp only [runHandler, hh, hr] at hrun
  cases hm : merge out.Object r.RawData with
  | error e => rw [hm] at hrun; simp at hrun
  | ok newObj =>
    rw [hm] at hrun
    simp only [mergo.Merge, mergo.options_append] at hrun
    rcases hR : mergo.deepMergeMap { Overwrite := true, AppendSlice := true } r.Data env with
      ⟨R, err⟩
    rw [hR] at hrun
    cases err with
    | some e => simp at hrun
    | none =>
      simp only [Prod.mk.injEq, and_true] at hrun
      rw [hrun.2]

/-- Counterexample to C3: the accumulated variables hold a list under `hosts` and a string
under `user`; the data of `g-mixed` hold a list under `user`, a list under `hosts` and a
number under `port`. The merge fails at `user`, `runHandler` returns the error, and the
variables are left as they were: `hosts` is not the concatenation of the two lists and
`port`, which only the new data have, is not added. -/
theorem runHandler_failed_merge_leaves_variables :
    runHandler (Example.cluster fun _ => []) (Example.db []) (Example.db []) "g-mixed" "x"
        [("hosts", .list [.str "h1"]), ("user", .str "u")] =
      ((Example.db [], [("hosts", .list [.str "h1"]), ("user", .str "u")]),
        some (.mergeFailed "cannot append two slices with different type")) ∧
    Example.specHandler "g-mixed" "x" (Example.db []) =
      .ok { Handle := .ok { RawData := [],
                            Data := [("user", .list [.str "x"]), ("hosts", .list [.str "h2"]),
                                     ("port", .num 1)] } } ∧
    getKey ([("hosts", .list [.str "h1"]), ("user", .str "u")] : Doc) "hosts" =
      some (.list [.str "h1"]) ∧
    getKey ([("user", .list [.str "x"]), ("hosts", .list [.str "h2"]), ("port", .num 1)] : Doc)
      "hosts" = some (.list [.str "h2"]) ∧
    getKey ([("hosts", .list [.str "h1"]), ("user", .str "u")] : Doc) "port" = none ∧
    getKey ([("user", .list [.str "x"]), ("hosts", .list [.str "h2"]), ("port", .num 1)] : Doc)
      "port" = some (.num 1) :=
  ⟨rfl, rfl, rfl, rfl, rfl, rfl⟩

/-- C3, amended: when `runHandler` merges the data of a handler result into the
accumulated variables and returns no error, a name under which both hold a list holds
afterwards the accumulated list followed by the new list; a name under which both hold a
scalar holds the newly contributed scalar; a name only the accumulated variables have
keeps its value, and a name only the new data have gets the value of the new data. -/
theorem runHandler_merges_variables (c : Cluster CRDDescription) (obj out out' : Unstructured)
    (key value : String) (env env' : Doc) (h : SpecHandler) (r : HandlerResult)
    (hh : c.NewSpecHandler key value obj = .ok h) (hr : h.Handle = .ok r)
    (hnd : NodupKeys r.Data)
    (hrun : runHandler c obj out key value env = ((out', env'), none)) :
    (∀ name xs ys, getKey env name = some (.list xs) → getKey r.Data name = some (.list ys) →
      getKey env' name = some (.list (xs ++ ys))) ∧
    (∀ name a b, getKey env name = some a → getKey r.Data name = some b →
      a.isScalar = true → b.isScalar = true → getKey env' name = some b) ∧
    (∀ name, getKey r.Data name = none → getKey env' name = getKey env name) ∧
    (∀ name, getKey env name = none → getKey env' name = getKey r.Data name) := by
  have hm := runHandler_ok_merge c obj out out' key value env env' h r hh hr hrun
  have hok : (mergo.deepMergeMap { Overwrite := true, AppendSlice := true } r.Data env).2 = none := by
    rw [hm]
  have henv : env' = (mergo.deepMergeMap { Overwrite := true, AppendSlice := true } r.Data env).1 := by
    rw [hm]
  refine ⟨?_, ?_, ?_, ?_⟩
  · intro name xs ys hx hy
    obtain ⟨M', h1, _, h3⟩ := mergo.deepMergeMap_at_key _ r.Data env name _ hnd hy hok
    rw [henv, h3]
    exact mergo.getKey_mergeElement_append_lists name xs ys M' (by rw [h1, hx])
  · intro name a b _ hb _ hbs
    obtain ⟨M', _, _, h3⟩ := mergo.deepMergeMap_at_key _ r.Data env name _ hnd hb hok
    rw [henv, h3]
    exact mergo.getKey_mergeElement_append_scalar name b M' hbs
  · intro name hnone
    rw [henv]
    exact mergo.getKey_deepMergeMap_of_not_mem _ _ _ _ ((getKey_eq_none_iff _ _).1 hnone)
  · intro name hnone
    cases hd : getKey r.Data name with
    | none =>
      rw [henv, mergo.getKey_deepMergeMap_of_not_mem _ _ _ _ ((getKey_eq_none_iff _ _).1 hd)]
      exact hnone
    | some s =>
      obtain ⟨M', h1, _, h3⟩ := mergo.deepMergeMap_at_key _ r.Data env name _ hnd hd hok
      rw [henv, h3]
      exact mergo.getKey_mergeElement_append_new name s M' (by rw [h1, hnone])

/-- Witness of C3 as amended: the handler of `b-hosts` contributes a list under `hosts`, where the
accumulated variables hold a list already. -/
theorem runHandler_merges_variables_witness :
    runHandler (Example.cluster fun _ => []) (Example.db []) (Example.db []) "b-hosts" "h2"
        [("hosts", .list [.str "h1"]), ("user", .str "u")] =
      (({ Object := [("status", .obj [("seen", .bool true)]), ("kind", .str "Database"),
                     ("metadata", .obj [("name", .str "db1"), ("uid", .str "u1"),
                                        ("annotations", .obj [])]),
                     ("spec", .obj [("user", .str "root")])] },
        [("hosts", .list [.str "h1", .str "h2"]), ("user", .str "u")]), none) ∧
    getKey ([("hosts", .list [.str "h1", .str "h2"]), ("user", .str "u")] : Doc) "hosts" =
      some (.list ([.str "h1"] ++ [.str "h2"])) :=
  ⟨rfl,
   (runHandler_merges_variables (Example.cluster fun _ => []) (Example.db []) (Example.db [])
      { Object := [("status", .obj [("seen", .bool true)]), ("kind", .str "Database"),
                   ("metadata", .obj [("name", .str "db1"), ("uid", .str "u1"),
                                      ("annotations", .obj [])]),
                   ("spec", .obj [("user", .str "root")])] }
      "b-hosts" "h2" [("hosts", .list [.str "h1"]), ("user", .str "u")]
      [("hosts", .list [.str "h1", .str "h2"]), ("user", .str "u")]
      { Handle := .ok { RawData := [("status", .obj [("seen", .bool true)])],
                        Data := [("hosts", .list [.str "h2"])] } }
      { RawData := [("status", .obj [("seen", .bool true)])],
        Data := [("hosts", .list [.str "h2"])] }
      rfl rfl (by decide) rfl).1 "hosts" [.str "h1"] [.str "h2"] rfl rfl⟩

end controllers

/-! ## Two runs with the same content -/

namespace controllers

variable {CRDDescription : Type}

theorem merge_congr (dst dst' src src' : Doc)
    (hwd : (Value.obj dst).wf = true) (hwd' : (Value.obj dst').wf = true)
    (hws : (Value.obj src).wf = true) (hws' : (Value.obj src').wf = true)
    (hd : Value.Equiv (.obj dst) (.obj dst')) (hs : Value.Equiv (.obj src) (.obj src')) :
    ∃ m m', merge dst src = .ok m ∧ merge dst' src' = .ok m' ∧
      Value.Equiv (.obj m) (.obj m') ∧ (Value.obj m).wf = true ∧ (Value.obj m').wf = true := by
  refine ⟨_, _, merge_eq dst src (wf_obj_nodupKeys hws), merge_eq dst' src' (wf_obj_nodupKeys hws'),
    ?_, ?_, ?_⟩
  · exact (mergo.deepMergeMap_congr {} dst dst' src src' hwd hwd' hd hs
      (mergo.deepMergeMap_no_error {} rfl dst src)).2
  · exact mergo.wf_deepMergeMap {} dst src ((wf_obj_iff _).1 hwd).2 hws
  · exact mergo.wf_deepMergeMap {} dst' src' ((wf_obj_iff _).1 hwd').2 hws'

theorem runHandler_congr (c : Cluster CRDDescription)
    (f : Option CRDDescription → List (String × String))
    (g : Unstructured → List (String × String))
    (h' : String → String → Unstructured → Except Err SpecHandler)
    (hh : SameResults c.NewSpecHandler h') (obj out out' : Unstructured) (env env' : Doc)
    (key value : String)
    (hwo : (Value.obj out.Object).wf = true) (hwo' : (Value.obj out'.Object).wf = true)
    (ho : Value.Equiv (.obj out.Object) (.obj out'.Object))
    (he : Value.Equiv (.obj env) (.obj env'))
    (hsucc : ((runHandler c obj out key value env).2.isNone ||
      !handlerSucceeds c obj (key, value)) = true) :
    (Value.obj (runHandler c obj out key value env).1.1.Object).wf = true ∧
    (Value.obj (runHandler (c.reenumerate f g h') obj out' key value env').1.1.Object).wf = true ∧
    Value.Equiv (.obj (runHandler c obj out key value env).1.1.Object)
      (.obj (runHandler (c.reenumerate f g h') obj out' key value env').1.1.Object) ∧
    Value.Equiv (.obj (runHandler c obj out key value env).1.2)
      (.obj (runHandler (c.reenumerate f g h') obj out' key value env').1.2) := by
  have hk := hh key value obj
  have hc' : (c.reenumerate f g h').NewSpecHandler key value obj = h' key value obj := rfl
  simp only [runHandler, hc', handlerSucceeds] at hsucc ⊢
  cases h1 : c.NewSpecHandler key value obj with
  | error e =>
    cases h2 : h' key value obj with
    | error e' => exact ⟨hwo, hwo', ho, he⟩
    | ok b => rw [h1, h2] at hk; exact absurd hk (by simp)
  | ok a =>
    cases h2 : h' key value obj with
    | error e' => rw [h1, h2] at hk; exact absurd hk (by simp)
    | ok b =>
      rw [h1, h2] at hk
      simp only at hk
      rw [h1] at hsucc
      simp only at hsucc ⊢
      cases h3 : a.Handle with
      | error e =>
        cases h4 : b.Handle with
        | error e' => exact ⟨hwo, hwo', ho, he⟩
        | ok r' => rw [h3, h4] at hk; exact absurd hk (by simp)
      | ok r =>
        cases h4 : b.Handle with
        | error e' => rw [h3, h4] at hk; exact absurd hk (by simp)
        | ok r' =>
          rw [h3, h4] at hk
          simp only at hk
          obtain ⟨hw1, hw2, hw3, hw4, hraw, hdata⟩ := hk
          obtain ⟨m, m', hm, hm', hmm, hwm, hwm'⟩ :=
            merge_congr out.Object out'.Object r.RawData r'.RawData hwo hwo' hw1 hw2 ho hraw
          rw [h3] at hsucc
          simp only [hm, mergo.Merge, mergo.options_append] at hsucc
          simp only [hm, hm', mergo.Merge, mergo.options_append]
          have hok : (mergo.deepMergeMap { Overwrite := true, AppendSlice := true } r.Data env).2
              = none := by
            rcases hR : mergo.deepMergeMap { Overwrite := true, AppendSlice := true } r.Data env
              with ⟨R, err⟩
            rw [hR] at hsucc
            cases err with
            | none => rfl
            | some e => simp at hsucc
          obtain ⟨hok', hres⟩ := mergo.deepMergeMap_congr { Overwrite := true, AppendSlice := true }
            r.Data r'.Data env env' hw3 hw4 hdata he hok
          rcases hR : mergo.deepMergeMap { Overwrite := true, AppendSlice := true } r.Data env
            with ⟨R, err⟩
          rcases hR' : mergo.deepMergeMap { Overwrite := true, AppendSlice := true } r'.Data env'
            with ⟨R', err'⟩
          rw [hR] at hok hres
          rw [hR'] at hok' hres
          simp only at hok hok' hres
          subst hok
          subst hok'
          exact ⟨hwm, hwm', hmm, hres⟩

theorem loop_congr (c : Cluster CRDDescription)
    (f : Option CRDDescription → List (String × String))
    (g : Unstructured → List (String × String))
    (h' : String → String → Unstructured → Except Err SpecHandler)
    (hh : SameResults c.NewSpecHandler h') (obj : Unstructured)
    (anns anns' : List (String × String)) (hget : ∀ k, getKey anns' k = getKey anns k)
    (keys : List String) (st st' : Unstructured × Doc)
    (hwo : (Value.obj st.1.Object).wf = true) (hwo' : (Value.obj st'.1.Object).wf = true)
    (ho : Value.Equiv (.obj st.1.Object) (.obj st'.1.Object))
    (he : Value.Equiv (.obj st.2) (.obj st'.2))
    (hsucc : variableMergesSucceed c obj anns keys st = true) :
    Value.Equiv (.obj (keys.foldl (handleKey c obj anns) st).1.Object)
      (.obj (keys.foldl (handleKey (c.reenumerate f g h') obj anns') st').1.Object) ∧
    Value.Equiv (.obj (keys.foldl (handleKey c obj anns) st).2)
      (.obj (keys.foldl (handleKey (c.reenumerate f g h') obj anns') st').2) := by
  induction keys generalizing st st' with
  | nil => exact ⟨ho, he⟩
  | cons k rest ih =>
    simp only [variableMergesSucceed, Bool.and_eq_true] at hsucc
    obtain ⟨h1, h2, h3, h4⟩ := runHandler_congr c f g h' hh obj st.1 st'.1 st.2 st'.2 k
      ((getKey anns k).getD "") hwo hwo' ho he hsucc.1
    simp only [List.foldl_cons]
    have hstep : handleKey (c.reenumerate f g h') obj anns' st' k =
        (runHandler (c.reenumerate f g h') obj st'.1 k ((getKey anns k).getD "") st'.2).1 := by
      simp only [handleKey, hget]
    rw [hstep]
    exact ih _ _ h1 h2 h3 h4 hsucc.2

end controllers

namespace controllers

variable {CRDDescription : Type}

theorem collectAnnotations_without_crd (c : Cluster CRDDescription) (ns : String)
    (gvk : GroupVersionKind) (gvr : GroupVersionResource) (obj : Unstructured) (e : Err)
    (hcrd : c.findServiceCRD gvr = .error e) :
    collectAnnotations c ns gvk gvr obj =
      if errors.IsNotFound (some e) = true then
        .ok (mergo.deepMergeStrings overrideConfig (c.GetAnnotations obj) [])
      else .error e := by
  simp only [collectAnnotations, hcrd, mergo.MergeStrings]
  cases errors.IsNotFound (some e) <;> rfl

theorem collectAnnotations_with_crd (c : Cluster CRDDescription) (ns : String)
    (gvk : GroupVersionKind) (gvr : GroupVersionResource) (obj crd : Unstructured)
    (desc : Option CRDDescription) (err : Option Err)
    (hcrd : c.findServiceCRD gvr = .ok crd)
    (hdesc : c.findCRDDescription ns gvk crd = (desc, err)) :
    collectAnnotations c ns gvk gvr obj =
      if (err.isSome && !errors.IsNotFound err) = true then .error (err.getD (.other ""))
      else
        .ok (mergo.deepMergeStrings overrideConfig (c.GetAnnotations obj)
          (mergo.deepMergeStrings overrideConfig (c.GetAnnotations crd)
            (mergo.deepMergeStrings overrideConfig
              (c.convertCRDDescriptionToAnnotations desc) []))) := by
  simp only [collectAnnotations, hcrd, hdesc, mergo.MergeStrings]
  cases (err.isSome && !errors.IsNotFound err) <;> rfl

theorem collectAnnotations_reenumerate (c : Cluster CRDDescription)
    (f : Option CRDDescription → List (String × String))
    (g : Unstructured → List (String × String))
    (h' : String → String → Unstructured → Except Err SpecHandler)
    (hf : ∀ d, (f d).Perm (c.convertCRDDescriptionToAnnotations d))
    (hg : ∀ u, (g u).Perm (c.GetAnnotations u))
    (hfn : ∀ d, NodupKeys (c.convertCRDDescriptionToAnnotations d))
    (hgn : ∀ u, NodupKeys (c.GetAnnotations u))
    (ns : String) (gvk : GroupVersionKind) (gvr : GroupVersionResource) (obj : Unstructured) :
    match collectAnnotations c ns gvk gvr obj,
      collectAnnotations (c.reenumerate f g h') ns gvk gvr obj with
    | .error e, .error e' => e' = e
    | .ok anns, .ok anns' => ∀ k, getKey anns' k = getKey anns k
    | _, _ => False := by
  cases hcrd : c.findServiceCRD gvr with
  | error e =>
    rw [collectAnnotations_without_crd c ns gvk gvr obj e hcrd,
      collectAnnotations_without_crd (c.reenumerate f g h') ns gvk gvr obj e hcrd]
    by_cases hnf : errors.IsNotFound (some e) = true
    · simp only [hnf, if_true]
      intro k
      exact getKey_layers_congr _ _ _ _ (hg obj) (hgn obj) (fun _ => rfl) k
    · simp [hnf]
  | ok crd =>
    rcases hdesc : c.findCRDDescription ns gvk crd with ⟨desc, err⟩
    rw [collectAnnotations_with_crd c ns gvk gvr obj crd desc err hcrd hdesc,
      collectAnnotations_with_crd (c.reenumerate f g h') ns gvk gvr obj crd desc err hcrd hdesc]
    by_cases hcond : (err.isSome && !errors.IsNotFound err) = true
    · simp [hcond]
    · simp only [hcond]
      intro k
      exact getKey_layers_congr _ _ _ _ (hg obj) (hgn obj)
        (getKey_layers_congr _ _ _ _ (hg crd) (hgn crd)
          (getKey_layers_congr _ _ _ _ (hf _) (hfn _) (fun _ => rfl))) k

theorem collectAnnotations_reenumerate_ok (c : Cluster CRDDescription)
    (f : Option CRDDescription → List (String × String))
    (g : Unstructured → List (String × String))
    (h' : String → String → Unstructured → Except Err SpecHandler)
    (hf : ∀ d, (f d).Perm (c.convertCRDDescriptionToAnnotations d))
    (hg : ∀ u, (g u).Perm (c.GetAnnotations u))
    (hfn : ∀ d, NodupKeys (c.convertCRDDescriptionToAnnotations d))
    (hgn : ∀ u, NodupKeys (c.GetAnnotations u))
    (ns : String) (gvk : GroupVersionKind) (gvr : GroupVersionResource) (obj : Unstructured)
    (anns : List (String × String)) (hanns : collectAnnotations c ns gvk gvr obj = .ok anns) :
    ∃ anns', collectAnnotations (c.reenumerate f g h') ns gvk gvr obj = .ok anns' ∧
      NodupKeys anns' ∧ ∀ k, getKey anns' k = getKey anns k := by
  have hrel := collectAnnotations_reenumerate c f g h' hf hg hfn hgn ns gvk gvr obj
  cases h4 : collectAnnotations (c.reenumerate f g h') ns gvk gvr obj with
  | error e' => rw [hanns, h4] at hrel; exact absurd hrel (by simp)
  | ok anns' =>
    rw [hanns, h4] at hrel
    exact ⟨anns', rfl, collectAnnotations_nodupKeys _ ns gvk gvr obj anns' h4, hrel⟩

/-- Counterexample to C2: two runs on the same annotation layers with handlers that return
the same results, the data map of `g-mixed` once enumerated as user, hosts, port and once
backwards. `c-user` leaves a string under `user`, so the list `g-mixed` contributes under
`user` makes the variable merge fail; the variables merged before the failure are kept,
and they are none in the first run, `port` and `hosts` in the second. -/
theorem buildServiceContext_depends_on_data_order :
    ([("user", .list [.str "x"]), ("hosts", .list [.str "h2"]), ("port", .num 1)] : Doc).reverse =
      [("port", .num 1), ("hosts", .list [.str "h2"]), ("user", .list [.str "x"])] ∧
    buildServiceContext (Example.cluster fun _ => [("c-user", .str "u"), ("g-mixed", .str "x")])
        "ns" ⟨"example.org", "v1", "Plain"⟩ "db1" "" false none =
      .ok { service := Example.db [("c-user", .str "u"), ("g-mixed", .str "x")],
            envVars := [("user", .str "u")],
            namingTemplate := "", bindAsFiles := false, id := none } ∧
    buildServiceContext
        ((Example.cluster fun _ => [("c-user", .str "u"), ("g-mixed", .str "x")]).reenumerate
          (Example.cluster fun _ => []).convertCRDDescriptionToAnnotations
          Example.annotationsOf Example.specHandlerReordered)
        "ns" ⟨"example.org", "v1", "Plain"⟩ "db1" "" false none =
      .ok { service := Example.db [("c-user", .str "u"), ("g-mixed", .str "x")],
            envVars := [("user", .str "u"), ("port", .num 1), ("hosts", .list [.str "h2"])],
            namingTemplate := "", bindAsFiles := false, id := none } :=
  ⟨rfl, rfl, rfl⟩

/-- C2, amended: `buildServiceContext` runs `runHandler` over the keys of the collected
annotations in strictly ascending order, each key once, and returns the objects that loop
leaves. Its result does not depend on the order in which the annotation maps are
enumerated: with the same handler results, a run with the three layers enumerated in any
other order returns the same result. A second run on the same three layers whose handlers
fail or succeed alike and return well-formed raw data and data with the same content
(`SameResults`), every map enumerated in any order, returns no error and an output
document and variables with the same content as the first run (`Value.Equiv`), and the
same naming template, bind-as-files flag and id, provided the service object is
well-formed and no variable merge fails in the first run (`variableMergesSucceed`). -/
theorem buildServiceContext_independent_of_enumeration (c : Cluster CRDDescription)
    (f : Option CRDDescription → List (String × String))
    (g : Unstructured → List (String × String))
    (h' : String → String → Unstructured → Except Err SpecHandler)
    (ns : String) (gvk : GroupVersionKind) (name nt : String) (baf : Bool) (id : Option String)
    (hf : ∀ d, (f d).Perm (c.convertCRDDescriptionToAnnotations d))
    (hg : ∀ u, (g u).Perm (c.GetAnnotations u))
    (hfn : ∀ d, NodupKeys (c.convertCRDDescriptionToAnnotations d))
    (hgn : ∀ u, NodupKeys (c.GetAnnotations u))
    (hh : SameResults c.NewSpecHandler h') :
    (∀ gvr obj anns, c.ResourceForKind gvk = .ok gvr → c.findService ns gvr name = .ok obj →
      collectAnnotations c ns gvk gvr obj = .ok anns →
      List.Sorted (fun a b : String => a < b) (sortedKeys anns) ∧
      (sortedKeys anns).Perm (mapKeys anns) ∧
      buildServiceContext c ns gvk name nt baf id =
        .ok { service := ((sortedKeys anns).foldl
                (fun st k => (runHandler c obj st.1 k ((getKey anns k).getD "") st.2).1)
                (obj, [])).1,
              envVars := ((sortedKeys anns).foldl
                (fun st k => (runHandler c obj st.1 k ((getKey anns k).getD "") st.2).1)
                (obj, [])).2,
              namingTemplate := nt, bindAsFiles := baf, id := id }) ∧
    buildServiceContext (c.reenumerate f g c.NewSpecHandler) ns gvk name nt baf id =
      buildServiceContext c ns gvk name nt baf id ∧
    (∀ gvr obj anns, c.ResourceForKind gvk = .ok gvr → c.findService ns gvr name = .ok obj →
      collectAnnotations c ns gvk gvr obj = .ok anns →
      (Value.obj obj.Object).wf = true →
      variableMergesSucceed c obj anns (sortedKeys anns) (obj, []) = true →
      ∃ ctx ctx', buildServiceContext c ns gvk name nt baf id = .ok ctx ∧
        buildServiceContext (c.reenumerate f g h') ns gvk name nt baf id = .ok ctx' ∧
        Value.Equiv (.obj ctx.service.Object) (.obj ctx'.service.Object) ∧
        Value.Equiv (.obj ctx.envVars) (.obj ctx'.envVars) ∧
        ctx'.namingTemplate = ctx.namingTemplate ∧ ctx'.bindAsFiles = ctx.bindAsFiles ∧
        ctx'.id = ctx.id) := by
  refine ⟨?_, ?_, ?_⟩
  · intro gvr obj anns hgvr hobj hanns
    have hn := collectAnnotations_nodupKeys c ns gvk gvr obj anns hanns
    exact ⟨sort.Strings_strictly_ascending hn, sort.Strings_perm _,
      buildServiceContext_of_annotations c ns gvk gvr name nt baf id obj anns hgvr hobj hanns⟩
  · simp only [buildServiceContext]
    have h1 : (c.reenumerate f g c.NewSpecHandler).ResourceForKind gvk = c.ResourceForKind gvk :=
      rfl
    rw [h1]
    cases c.ResourceForKind gvk with
    | error e => rfl
    | ok gvr =>
      simp only
      have h2 : (c.reenumerate f g c.NewSpecHandler).findService ns gvr name =
          c.findService ns gvr name := rfl
      rw [h2]
      cases c.findService ns gvr name with
      | error e => rfl
      | ok obj =>
        simp only
        have hrel := collectAnnotations_reenumerate c f g c.NewSpecHandler hf hg hfn hgn ns gvk
          gvr obj
        cases h3 : collectAnnotations c ns gvk gvr obj with
        | error e =>
          cases h4 : collectAnnotations (c.reenumerate f g c.NewSpecHandler) ns gvk gvr obj with
          | error e' =>
            rw [h3, h4] at hrel
            simp only at hrel
            rw [hrel]
          | ok anns' => rw [h3, h4] at hrel; exact absurd hrel (by simp)
        | ok anns =>
          cases h4 : collectAnnotations (c.reenumerate f g c.NewSpecHandler) ns gvk gvr obj with
          | error e' => rw [h3, h4] at hrel; exact absurd hrel (by simp)
          | ok anns' =>
            rw [h3, h4] at hrel
            simp only at hrel
            have hp := (processAnnotations_congr c (c.reenumerate f g c.NewSpecHandler) obj anns
              anns' rfl (collectAnnotations_nodupKeys c ns gvk gvr obj anns h3)
              (collectAnnotations_nodupKeys _ ns gvk gvr obj anns' h4) hrel).2
            simp only [hp]
  · intro gvr obj anns hgvr hobj hanns hwf hsucc
    obtain ⟨anns', hanns', hn', hget⟩ :=
      collectAnnotations_reenumerate_ok c f g h' hf hg hfn hgn ns gvk gvr obj anns hanns
    have hn := collectAnnotations_nodupKeys c ns gvk gvr obj anns hanns
    have hkeys : sortedKeys anns' = sortedKeys anns :=
      (processAnnotations_congr c c obj anns anns' rfl hn hn' hget).1
    have hloop := loop_congr c f g h' hh obj anns anns' hget (sortedKeys anns) (obj, []) (obj, [])
      hwf hwf (Value.equiv_refl _) (Value.equiv_refl _) hsucc
    refine ⟨_, _,
      buildServiceContext_of_annotations c ns gvk gvr name nt baf id obj anns hgvr hobj hanns,
      buildServiceContext_of_annotations (c.reenumerate f g h') ns gvk gvr name nt baf id obj
        anns' hgvr hobj hanns', ?_, ?_, rfl, rfl, rfl⟩
    · simp only [processAnnotations, hkeys]
      exact hloop.1
    · simp only [processAnnotations, hkeys]
      exact hloop.2

end controllers

namespace Example

theorem sameResults_reordered :
    controllers.SameResults specHandler specHandlerReordered := by
  intro key value obj
  by_cases hk : key = "g-mixed"
  · subst hk
    simp only [specHandler, specHandlerReordered]
    refine ⟨rfl, rfl, ?_, ?_, Value.equiv_refl _, ?_⟩
    · simp [Value.wf, wfFields, wfEntry, wfList, NodupKeys, mapKeys]
    · simp [Value.wf, wfFields, wfEntry, wfList, NodupKeys, mapKeys]
    · apply Value.equiv_obj_of_getKey
      intro k
      by_cases h1 : k = "user"
      · subst h1
        simp [getKey, Value.EquivOpt, Value.equiv_refl]
      · by_cases h2 : k = "hosts"
        · subst h2
          simp [getKey, Value.EquivOpt, Value.equiv_refl]
        · by_cases h3 : k = "port"
          · subst h3
            simp [getKey, Value.EquivOpt, Value.equiv_refl]
          · simp [getKey, Value.EquivOpt, Ne.symm h1, Ne.symm h2, Ne.symm h3]
  · simp only [specHandlerReordered, hk, if_false]
    simp only [specHandler]
    split_ifs <;>
      simp [Value.wf, wfFields, wfEntry, wfList, NodupKeys, mapKeys, Value.equiv_refl]

end Example

/-! ## The object-patch merge -/

theorem getPath_cons_obj (fields : Doc) (k : String) (path : List String) :
    (Value.obj fields).getPath (k :: path) =
      match getKey fields k with
      | some v => v.getPath path
      | none => none := by
  simp only [Value.getPath]

theorem getPath_cons_eq_some {v : Value} {k : String} {path : List String} {a : Value}
    (h : v.getPath (k :: path) = some a) :
    ∃ fields w, v = .obj fields ∧ getKey fields k = some w ∧ w.getPath path = some a := by
  cases v with
  | obj fields =>
    rw [getPath_cons_obj] at h
    cases hw : getKey fields k with
    | none => rw [hw] at h; simp at h
    | some w => rw [hw] at h; exact ⟨fields, w, rfl, hw, h⟩
  | null => simp [Value.getPath] at h
  | bool b => simp [Value.getPath] at h
  | num n => simp [Value.getPath] at h
  | str s => simp [Value.getPath] at h
  | list xs => simp [Value.getPath] at h

theorem isEmptyValue_null_of_nonempty {a : Value} (h : mergo.isEmptyValue a = false) :
    a ≠ .null := by
  intro h0; subst h0; simp [mergo.isEmptyValue] at h

namespace mergo

theorem deepMergeMap_conflict (path : List String) (D M : Doc) (a b : Value)
    (hpath : path ≠ []) (hwf : (Value.obj D).wf = true)
    (ha : (Value.obj D).getPath path = some a) (hb : (Value.obj M).getPath path = some b)
    (hae : isEmptyValue a = false) (hao : a.isObj = false)
    (hbe : isEmptyValue b = false) :
    (Value.obj (deepMergeMap {} D M).1).getPath path = some b := by
  induction path generalizing D M with
  | nil => exact absurd rfl hpath
  | cons k rest ih =>
    obtain ⟨_, vD, hD1, hDk, hDrest⟩ := getPath_cons_eq_some ha
    obtain ⟨_, vM, hM1, hMk, hMrest⟩ := getPath_cons_eq_some hb
    cases hD1
    cases hM1
    have hn := wf_obj_nodupKeys hwf
    cases rest with
    | nil =>
      simp only [Value.getPath, Option.some.injEq] at hDrest hMrest
      subst hDrest
      subst hMrest
      rw [getPath_cons_obj,
        getKey_deepMergeMap_default D M k vD hn hDk (isEmptyValue_null_of_nonempty hae)
          (Or.inl hao), hMk]
      simp [isEmptyElement, hbe, Value.getPath]
    | cons k2 rest2 =>
      obtain ⟨df, _, hvD, _, _⟩ := getPath_cons_eq_some hDrest
      obtain ⟨mf, _, hvM, _, _⟩ := getPath_cons_eq_some hMrest
      subst hvD
      subst hvM
      have hrec := ih df mf (by simp) (wf_of_getKey hwf hDk) hDrest hMrest
      have hne : (deepMergeMap {} df mf).1.isEmpty = false := by
        obtain ⟨_, w, h1, h2, _⟩ := getPath_cons_eq_some hrec
        cases h1
        cases hR : (deepMergeMap {} df mf).1 with
        | nil => rw [hR] at h2; simp [getKey] at h2
        | cons e r => rfl
      rw [getPath_cons_obj, getKey_deepMergeMap_default_obj D M k df mf hn hDk hMk]
      simp only [hne, Bool.false_eq_true, if_false]
      exact hrec

end mergo

namespace controllers

/-- C4: for an accumulated document `dst` and a patch `src`, at every key, at the top
level or inside nested maps present on both sides, under which both hold a non-empty
value that is not a map, `merge dst src` succeeds and holds the value of the patch. -/
theorem merge_conflict_takes_patch (dst src : Doc) (path : List String) (a b : Value)
    (hdst : (Value.obj dst).wf = true) (hsrc : NodupKeys src) (hpath : path ≠ [])
    (ha : (Value.obj dst).getPath path = some a) (hb : (Value.obj src).getPath path = some b)
    (hae : mergo.isEmptyValue a = false) (hao : a.isObj = false)
    (hbe : mergo.isEmptyValue b = false) (_hbo : b.isObj = false) :
    ∃ m, merge dst src = .ok m ∧ (Value.obj m).getPath path = some b :=
  ⟨_, merge_eq dst src hsrc,
    mergo.deepMergeMap_conflict path dst src a b hpath hdst ha hb hae hao hbe⟩

/-- Witness of C4: both documents hold a user under `spec`, the patch wins. -/
theorem merge_conflict_takes_patch_witness :
    ∃ m, merge [("kind", .str "Database"),
                ("spec", .obj [("user", .str "root"), ("port", .num 5432)])]
               [("spec", .obj [("user", .str "admin")])] = .ok m ∧
      (Value.obj m).getPath ["spec", "user"] = some (.str "admin") :=
  merge_conflict_takes_patch
    [("kind", .str "Database"), ("spec", .obj [("user", .str "root"), ("port", .num 5432)])]
    [("spec", .obj [("user", .str "admin")])] ["spec", "user"] (.str "root") (.str "admin")
    (by decide) (by decide) (by simp) rfl rfl rfl rfl rfl rfl

theorem unionLevel_deepMergeMap (D M : Doc) (hn : NodupKeys D) :
    UnionLevel D M (mergo.deepMergeMap {} D M).1 := by
  have key : ∀ k d, getKey D k = some d → d ≠ .null →
      (∃ df mf, d = .obj df ∧ getKey M k = some (.obj mf) ∧
        getKey (mergo.deepMergeMap {} D M).1 k =
          if (mergo.deepMergeMap {} df mf).1.isEmpty then some (.obj df)
          else some (.obj (mergo.deepMergeMap {} df mf).1)) ∨
      ((∀ mf, d.isObj = true → getKey M k ≠ some (.obj mf)) ∧
        getKey (mergo.deepMergeMap {} D M).1 k =
          if mergo.isEmptyElement (getKey M k) then some d else getKey M k) := by
    intro k d hd hnull
    by_cases hboth : d.isObj = true ∧ ∃ mf, getKey M k = some (.obj mf)
    · obtain ⟨hobj, mf, hm⟩ := hboth
      cases d with
      | obj df =>
        exact Or.inl ⟨df, mf, rfl, hm,
          mergo.getKey_deepMergeMap_default_obj D M k df mf hn hd hm⟩
      | null => simp [Value.isObj] at hobj
      | bool b => simp [Value.isObj] at hobj
      | num n => simp [Value.isObj] at hobj
      | str s => simp [Value.isObj] at hobj
      | list xs => simp [Value.isObj] at hobj
    · have hkind : d.isObj = false ∨ ∀ mf, getKey M k ≠ some (.obj mf) := by
        by_cases ho : d.isObj = true
        · right
          intro mf hm
          exact hboth ⟨ho, mf, hm⟩
        · left
          simpa using ho
      refine Or.inr ⟨?_, mergo.getKey_deepMergeMap_default D M k d hn hd hnull hkind⟩
      intro mf ho hm
      exact hboth ⟨ho, mf, hm⟩
  refine ⟨?_, ?_, ?_, ?_, ?_, ?_⟩
  · intro k hk
    cases hd : getKey D k with
    | none =>
      rw [mergo.getKey_deepMergeMap_of_not_mem _ _ _ _ ((getKey_eq_none_iff _ _).1 hd)]
      exact hk
    | some d =>
      by_cases hnull : d = .null
      · subst hnull
        rw [mergo.getKey_deepMergeMap_default_null D M k hn hd]
        exact hk
      · rcases key k d hd hnull with ⟨df, mf, _, _, h⟩ | ⟨_, h⟩
        · rw [h]; split <;> simp
        · rw [h]; split
          · simp
          · exact hk
  · intro k v hd hnull
    rcases key k v hd hnull with ⟨df, mf, _, _, h⟩ | ⟨_, h⟩
    · rw [h]; split <;> simp
    · rw [h]
      split
      · simp
      · rename_i hne
        intro hnone
        rw [hnone] at hne
        simp [mergo.isEmptyElement] at hne
  · intro k v hd hnull hm
    rcases key k v hd hnull with ⟨df, mf, _, hm', _⟩ | ⟨_, h⟩
    · rw [hm] at hm'; simp at hm'
    · rw [h, hm]
      simp [mergo.isEmptyElement]
  · intro k hd
    exact mergo.getKey_deepMergeMap_of_not_mem _ _ _ _ ((getKey_eq_none_iff _ _).1 hd)
  · intro k d s hd hs hde hse hso
    rcases key k d hd (isEmptyValue_null_of_nonempty hde) with ⟨df, mf, _, hm', _⟩ | ⟨_, h⟩
    · rw [hs] at hm'
      simp only [Option.some.injEq] at hm'
      subst hm'
      simp [Value.isObj] at hso
    · rw [h, hs]
      simp [mergo.isEmptyElement, hse]
  · intro k df s hd hs hse hso
    rcases key k (.obj df) hd (by simp) with ⟨df', mf, _, hm', _⟩ | ⟨_, h⟩
    · rw [hs] at hm'
      simp only [Option.some.injEq] at hm'
      subst hm'
      simp [Value.isObj] at hso
    · rw [h, hs]
      simp [mergo.isEmptyElement, hse]

theorem unionLevel_of_empty (D M : Doc) (hn : NodupKeys D)
    (he : (mergo.deepMergeMap {} D M).1 = []) : UnionLevel D M D := by
  obtain ⟨h1, h2, _, _, _, _⟩ := unionLevel_deepMergeMap D M hn
  rw [he] at h1 h2
  have hM : ∀ k, getKey M k = none := by
    intro k
    by_contra hk
    exact h1 k hk rfl
  have hD : ∀ k v, getKey D k = some v → v = .null := by
    intro k v hk
    by_contra hv
    exact h2 k v hk hv rfl
  refine ⟨?_, ?_, ?_, ?_, ?_, ?_⟩
  · intro k hk; exact absurd (hM k) hk
  · intro k v hk _; rw [hk]; simp
  · intro k v hk _ _; exact hk
  · intro k hk; rw [hk, hM k]
  · intro k d s _ hs; rw [hM k] at hs; simp at hs
  · intro k df s _ hs; rw [hM k] at hs; simp at hs

theorem unionLevel_nested (path : List String) (D M R df sf : Doc)
    (hwf : (Value.obj D).wf = true)
    (hD : (Value.obj D).getPath path = some (.obj df))
    (hM : (Value.obj M).getPath path = some (.obj sf))
    (hR : R = (mergo.deepMergeMap {} D M).1 ∨ ((mergo.deepMergeMap {} D M).1 = [] ∧ R = D)) :
    ∃ mf, (Value.obj R).getPath path = some (.obj mf) ∧ UnionLevel df sf mf := by
  induction path generalizing D M R with
  | nil =>
    simp only [Value.getPath, Option.some.injEq, Value.obj.injEq] at hD hM
    subst hD
    subst hM
    rcases hR with h | ⟨he, h⟩
    · subst h
      exact ⟨_, rfl, unionLevel_deepMergeMap D M (wf_obj_nodupKeys hwf)⟩
    · subst h
      exact ⟨_, rfl, unionLevel_of_empty R M (wf_obj_nodupKeys hwf) he⟩
  | cons k rest ih =>
    obtain ⟨_, vD, hD1, hDk, hDrest⟩ := getPath_cons_eq_some hD
    obtain ⟨_, vM, hM1, hMk, hMrest⟩ := getPath_cons_eq_some hM
    cases hD1
    cases hM1
    have hn := wf_obj_nodupKeys hwf
    have hvD : ∃ df0, vD = .obj df0 := by
      cases rest with
      | nil =>
        simp only [Value.getPath, Option.some.injEq] at hDrest
        exact ⟨df, hDrest⟩
      | cons k2 r2 =>
        obtain ⟨f, _, h, _, _⟩ := getPath_cons_eq_some hDrest
        exact ⟨f, h⟩
    have hvM : ∃ mf0, vM = .obj mf0 := by
      cases rest with
      | nil =>
        simp only [Value.getPath, Option.some.injEq] at hMrest
        exact ⟨sf, hMrest⟩
      | cons k2 r2 =>
        obtain ⟨f, _, h, _, _⟩ := getPath_cons_eq_some hMrest
        exact ⟨f, h⟩
    obtain ⟨df0, hdf0⟩ := hvD
    obtain ⟨mf0, hmf0⟩ := hvM
    subst hdf0
    subst hmf0
    have hval := mergo.getKey_deepMergeMap_default_obj D M k df0 mf0 hn hDk hMk
    rcases hR with h | ⟨he, _⟩
    · subst h
      rw [getPath_cons_obj, hval]
      by_cases hemp : (mergo.deepMergeMap {} df0 mf0).1.isEmpty = true
      · simp only [hemp, if_true]
        exact ih df0 mf0 df0 (wf_of_getKey hwf hDk) hDrest hMrest
          (Or.inr ⟨by simpa using hemp, rfl⟩)
      · simp only [hemp, if_false]
        exact ih df0 mf0 _ (wf_of_getKey hwf hDk) hDrest hMrest (Or.inl rfl)
    · rw [he] at hval
      split at hval <;> simp [getKey] at hval

/-- Counterexample to C5: a field of the accumulated document that holds null and is not
in the patch is not a key of the merge; and where the patch holds a string under a key
under which the accumulated document holds a map, the keys of that map are lost. -/
theorem merge_drops_null_field :
    merge [("a", .null), ("b", .num 1)] [] = .ok [("b", .num 1)] ∧
    getKey ([("a", .null), ("b", .num 1)] : Doc) "a" = some .null ∧
    getKey ([("b", .num 1)] : Doc) "a" = none ∧
    merge [("c", .obj [("x", .num 1)])] [("c", .str "s")] = .ok [("c", .str "s")] ∧
    (Value.obj [("c", .obj [("x", .num 1)])]).getPath ["c", "x"] = some (.num 1) ∧
    (Value.obj [("c", .str "s")]).getPath ["c", "x"] = none :=
  ⟨rfl, rfl, rfl, rfl, rfl, rfl⟩

/-- C5, amended: on well-formed documents `merge dst src` succeeds. At the top level and
inside every pair of nested maps that `dst` and `src` hold under the same path the result
is a union in the sense of `UnionLevel`: every key of the patch and every key of the
accumulated document that holds something other than null is a key of the result; a key
only in the accumulated document keeps its value unless that is null; a key only in the
patch gets the value of the patch; a non-empty value of the accumulated document is kept
where the patch holds an empty value that is not a map; and where the accumulated document
holds a map and the patch a non-empty value that is not a map, the result holds the value
of the patch. At the top level a key of the accumulated document that holds null and that
the patch lacks is not a key of the result. -/
theorem merge_union (dst src : Doc) (hdst : (Value.obj dst).wf = true) (hsrc : NodupKeys src) :
    ∃ m, merge dst src = .ok m ∧
      (∀ (path : List String) (df sf : Doc),
        (Value.obj dst).getPath path = some (.obj df) →
        (Value.obj src).getPath path = some (.obj sf) →
        ∃ mf, (Value.obj m).getPath path = some (.obj mf) ∧ UnionLevel df sf mf) ∧
      (∀ k, getKey dst k = some .null → getKey src k = none → getKey m k = none) :=
  ⟨_, merge_eq dst src hsrc,
    fun path df sf hD hM => unionLevel_nested path dst src _ df sf hdst hD hM (Or.inl rfl),
    fun k hd hs => by
      rw [mergo.getKey_deepMergeMap_default_null dst src k (wf_obj_nodupKeys hdst) hd]
      exact hs⟩

end controllers

/-! ## Failing annotations -/

namespace controllers

variable {CRDDescription : Type}

theorem runHandler_of_failure (c : Cluster CRDDescription) (obj out : Unstructured)
    (k v : String) (env : Doc) (h : handlerSucceeds c obj (k, v) = false) :
    (runHandler c obj out k v env).1 = (out, env) := by
  simp only [handlerSucceeds] at h
  simp only [runHandler]
  cases hh : c.NewSpecHandler k v obj with
  | error e => rfl
  | ok hd =>
    rw [hh] at h
    simp only at h ⊢
    cases hr : hd.Handle with
    | error e => rfl
    | ok r => rw [hr] at h; simp at h

theorem getKey_filter {V : Type} (m : List (String × V)) (p : String × V → Bool)
    (hn : NodupKeys m) (k : String) :
    getKey (m.filter p) k =
      match getKey m k with
      | some v => if p (k, v) = true then some v else none
      | none => none := by
  induction m with
  | nil => simp [getKey]
  | cons e rest ih =>
    obtain ⟨k0, v0⟩ := e
    rw [nodupKeys_cons] at hn
    by_cases h0 : k0 = k
    · subst h0
      have hrest : getKey rest k0 = none := (getKey_eq_none_iff _ _).2 hn.1
      by_cases hp : p (k0, v0) = true
      · simp [List.filter, hp, getKey]
      · have hp' : p (k0, v0) = false := by simpa using hp
        simp only [List.filter, hp', getKey, if_true]
        rw [ih hn.2, hrest]
        simp
    · by_cases hp : p (k0, v0) = true
      · simp [List.filter, hp, getKey, h0, ih hn.2]
      · have hp' : p (k0, v0) = false := by simpa using hp
        simp [List.filter, hp', getKey, h0, ih hn.2]

theorem mapKeys_filter {V : Type} (m : List (String × V)) (p : String × V → Bool)
    (hn : NodupKeys m) :
    mapKeys (m.filter p) =
      (mapKeys m).filter fun k =>
        match getKey m k with
        | some v => p (k, v)
        | none => false := by
  induction m with
  | nil => simp [mapKeys]
  | cons e rest ih =>
    obtain ⟨k0, v0⟩ := e
    rw [nodupKeys_cons] at hn
    have hcongr : (mapKeys rest).filter (fun k =>
          match getKey ((k0, v0) :: rest) k with
          | some v => p (k, v)
          | none => false) =
        (mapKeys rest).filter (fun k =>
          match getKey rest k with
          | some v => p (k, v)
          | none => false) := by
      apply List.filter_congr
      intro k hk
      have : k0 ≠ k := fun h => hn.1 (h ▸ hk)
      simp [getKey, this]
    have ih' := ih hn.2
    simp only [mapKeys] at ih' hcongr ⊢
    by_cases hp : p (k0, v0) = true
    · simp only [List.filter, hp, List.map_cons, getKey, if_true]
      rw [ih', ← hcongr]
      simp [getKey]
    · have hp' : p (k0, v0) = false := by simpa using hp
      simp only [List.filter, hp', List.map_cons, getKey, if_true]
      rw [ih', ← hcongr]
      simp [getKey]

theorem foldl_filter_skip {α σ : Type} (q : α → Bool) (F G : σ → α → σ) (l : List α)
    (hskip : ∀ k ∈ l, q k = false → ∀ st, F st k = st)
    (hsame : ∀ k ∈ l, q k = true → ∀ st, G st k = F st k) (st : σ) :
    (l.filter q).foldl G st = l.foldl F st := by
  induction l generalizing st with
  | nil => rfl
  | cons a rest ih =>
    have ih' := ih (fun k hk => hskip k (List.mem_cons_of_mem _ hk))
      (fun k hk => hsame k (List.mem_cons_of_mem _ hk))
    by_cases hq : q a = true
    · simp only [List.filter, hq, List.foldl_cons]
      rw [hsame a (List.mem_cons_self _ _) hq, ih']
    · have hq' : q a = false := by simpa using hq
      simp only [List.filter, hq', List.foldl_cons]
      rw [hskip a (List.mem_cons_self _ _) hq', ih']

theorem processAnnotations_filter (c : Cluster CRDDescription) (obj : Unstructured)
    (anns : List (String × String)) (hn : NodupKeys anns) :
    processAnnotations c obj (anns.filter (handlerSucceeds c obj)) =
      processAnnotations c obj anns := by
  simp only [processAnnotations, sortedKeys]
  rw [mapKeys_filter anns _ hn, sort.Strings_filter]
  apply foldl_filter_skip
  · intro k hk hq st
    have hmem : k ∈ mapKeys anns := (sort.Strings_perm _).mem_iff.1 hk
    cases hv : getKey anns k with
    | none => exact absurd hmem ((getKey_eq_none_iff _ _).1 hv)
    | some v =>
      simp only [hv] at hq
      simp only [handleKey, hv, Option.getD_some]
      exact runHandler_of_failure c obj st.1 k v st.2 hq
  · intro k hk hq st
    cases hv : getKey anns k with
    | none => simp [hv] at hq
    | some v =>
      simp only [hv] at hq
      simp only [handleKey, getKey_filter anns _ hn k, hv, hq, if_true]

/-- C8: whatever errors the construction or the execution of handlers returns, and for
whichever keys, `buildServiceContext` succeeds once its lookups do, and the output
document and the variables it returns are those of the annotation map without the keys
whose handler fails: the loop over any annotation map leaves the same objects as the loop
over the map with those keys removed. -/
theorem buildServiceContext_skips_failing_annotations (c : Cluster CRDDescription)
    (ns : String) (gvk : GroupVersionKind) (gvr : GroupVersionResource) (name nt : String)
    (baf : Bool) (id : Option String) (obj : Unstructured) (anns : List (String × String))
    (hgvr : c.ResourceForKind gvk = .ok gvr) (hobj : c.findService ns gvr name = .ok obj)
    (hanns : collectAnnotations c ns gvk gvr obj = .ok anns) :
    buildServiceContext c ns gvk name nt baf id =
      .ok { service := (processAnnotations c obj (anns.filter (handlerSucceeds c obj))).1,
            envVars := (processAnnotations c obj (anns.filter (handlerSucceeds c obj))).2,
            namingTemplate := nt, bindAsFiles := baf, id := id } ∧
    ∀ anns' : List (String × String), NodupKeys anns' →
      processAnnotations c obj anns' =
        processAnnotations c obj (anns'.filter (handlerSucceeds c obj)) := by
  refine ⟨?_, fun anns' hn => (processAnnotations_filter c obj anns' hn).symm⟩
  rw [processAnnotations_filter c obj anns (collectAnnotations_nodupKeys c ns gvk gvr obj anns hanns)]
  exact buildServiceContext_of_annotations c ns gvk gvr name nt baf id obj anns hgvr hobj hanns

end controllers

namespace Example

theorem nodupKeys_stringEntries_aux (fields : Doc) (acc : List (String × String))
    (h : NodupKeys acc) :
    NodupKeys (fields.foldl
      (fun m kv =>
        match kv.2 with
        | .str s => setKey m kv.1 s
        | _ => m) acc) := by
  induction fields generalizing acc with
  | nil => exact h
  | cons e rest ih =>
    simp only [List.foldl_cons]
    apply ih
    split
    · exact nodupKeys_setKey _ _ _ h
    · exact h

theorem nodupKeys_annotationsOf (u : Unstructured) : NodupKeys (annotationsOf u) := by
  unfold annotationsOf
  split
  · exact nodupKeys_stringEntries_aux _ _ nodupKeys_nil
  · exact nodupKeys_nil

end Example

namespace controllers

variable {CRDDescription : Type}

/-- Witness of C2 as amended: the annotations `b-hosts` and `g-mixed` of the example; the
second run enumerates every annotation layer and the data of `g-mixed` backwards. No
variable merge fails, and the variables of the two runs have the same content in another
order. -/
theorem buildServiceContext_independent_of_enumeration_witness :
    buildServiceContext (Example.cluster fun _ => [("g-mixed", .str "x"), ("b-hosts", .str "h")])
        "ns" ⟨"example.org", "v1", "Plain"⟩ "db1" "" false none =
      .ok { service :=
              { Object := [("status", .obj [("seen", .bool true)]), ("kind", .str "Database"),
                  ("metadata", .obj [("name", .str "db1"), ("uid", .str "u1"),
                    ("annotations", .obj [("g-mixed", .str "x"), ("b-hosts", .str "h")])]),
                  ("spec", .obj [("user", .str "root")])] },
            envVars := [("hosts", .list [.str "h", .str "h2"]), ("user", .list [.str "x"]),
                        ("port", .num 1)],
            namingTemplate := "", bindAsFiles := false, id := none } ∧
    buildServiceContext
        ((Example.cluster fun _ => [("g-mixed", .str "x"), ("b-hosts", .str "h")]).reenumerate
          (fun d => ((Example.cluster fun _ => []).convertCRDDescriptionToAnnotations d).reverse)
          (fun u => (Example.annotationsOf u).reverse) Example.specHandlerReordered)
        "ns" ⟨"example.org", "v1", "Plain"⟩ "db1" "" false none =
      .ok { service :=
              { Object := [("status", .obj [("seen", .bool true)]), ("kind", .str "Database"),
                  ("metadata", .obj [("name", .str "db1"), ("uid", .str "u1"),
                    ("annotations", .obj [("g-mixed", .str "x"), ("b-hosts", .str "h")])]),
                  ("spec", .obj [("user", .str "root")])] },
            envVars := [("hosts", .list [.str "h", .str "h2"]), ("port", .num 1),
                        ("user", .list [.str "x"])],
            namingTemplate := "", bindAsFiles := false, id := none } ∧
    ∃ ctx ctx',
      buildServiceContext
          (Example.cluster fun _ => [("g-mixed", .str "x"), ("b-hosts", .str "h")])
          "ns" ⟨"example.org", "v1", "Plain"⟩ "db1" "" false none = .ok ctx ∧
      buildServiceContext
          ((Example.cluster fun _ => [("g-mixed", .str "x"), ("b-hosts", .str "h")]).reenumerate
            (fun d => ((Example.cluster fun _ => []).convertCRDDescriptionToAnnotations d).reverse)
            (fun u => (Example.annotationsOf u).reverse) Example.specHandlerReordered)
          "ns" ⟨"example.org", "v1", "Plain"⟩ "db1" "" false none = .ok ctx' ∧
      Value.Equiv (.obj ctx.service.Object) (.obj ctx'.service.Object) ∧
      Value.Equiv (.obj ctx.envVars) (.obj ctx'.envVars) ∧
      ctx'.namingTemplate = ctx.namingTemplate ∧ ctx'.bindAsFiles = ctx.bindAsFiles ∧
      ctx'.id = ctx.id :=
  ⟨rfl, rfl,
   (buildServiceContext_independent_of_enumeration
      (Example.cluster fun _ => [("g-mixed", .str "x"), ("b-hosts", .str "h")])
      (fun d => ((Example.cluster fun _ => []).convertCRDDescriptionToAnnotations d).reverse)
      (fun u => (Example.annotationsOf u).reverse) Example.specHandlerReordered
      "ns" ⟨"example.org", "v1", "Plain"⟩ "db1" "" false none
      (fun _ => List.reverse_perm _) (fun _ => List.reverse_perm _)
      (fun d => by rcases d with _ | ⟨⟨⟩⟩ <;> decide) Example.nodupKeys_annotationsOf
      Example.sameResults_reordered).2.2
      ⟨"example.org", "v1", "Plain"⟩
      (Example.db [("g-mixed", .str "x"), ("b-hosts", .str "h")])
      [("g-mixed", "x"), ("b-hosts", "h")] rfl rfl rfl rfl rfl⟩

/-- Witness of C8: of the three annotations of the object the handler of `e-path` fails
when run and the handler of `zz` cannot be built; the context is the one of `c-user`
alone. -/
theorem buildServiceContext_skips_failing_annotations_witness :
    collectAnnotations
        (Example.cluster fun _ => [("zz", .str "q"), ("e-path", .str "p"), ("c-user", .str "u")])
        "ns" ⟨"example.org", "v1", "Plain"⟩ ⟨"example.org", "v1", "Plain"⟩
        (Example.db [("zz", .str "q"), ("e-path", .str "p"), ("c-user", .str "u")]) =
      .ok [("zz", "q"), ("e-path", "p"), ("c-user", "u")] ∧
    buildServiceContext
        (Example.cluster fun _ => [("zz", .str "q"), ("e-path", .str "p"), ("c-user", .str "u")])
        "ns" ⟨"example.org", "v1", "Plain"⟩ "db1" "" false none =
      .ok { service := (processAnnotations
              (Example.cluster fun _ =>
                [("zz", .str "q"), ("e-path", .str "p"), ("c-user", .str "u")])
              (Example.db [("zz", .str "q"), ("e-path", .str "p"), ("c-user", .str "u")])
              [("c-user", "u")]).1,
            envVars := [("user", .str "u")],
            namingTemplate := "", bindAsFiles := false, id := none } :=
  ⟨rfl,
   (buildServiceContext_skips_failing_annotations
      (Example.cluster fun _ => [("zz", .str "q"), ("e-path", .str "p"), ("c-user", .str "u")])
      "ns" ⟨"example.org", "v1", "Plain"⟩ ⟨"example.org", "v1", "Plain"⟩ "db1" "" false none
      (Example.db [("zz", .str "q"), ("e-path", .str "p"), ("c-user", .str "u")])
      [("zz", "q"), ("e-path", "p"), ("c-user", "u")] rfl rfl rfl).1⟩

/-! ## Errors of the merges -/

theorem merge_total (dst src : Doc) : ∃ m, merge dst src = .ok m := by
  have h1 := mergo.deepMergeMap_no_error
    { Overwrite := true, overwriteSliceWithEmptyValue := true, AppendSlice := false } rfl src []
  simp only [merge, mergo.Merge, mergo.options_copy, List.foldl_nil]
  rcases hR : mergo.deepMergeMap
    { Overwrite := true, overwriteSliceWithEmptyValue := true, AppendSlice := false } src []
    with ⟨R, err⟩
  rw [hR] at h1
  simp only at h1
  subst h1
  simp only
  have h2 := mergo.deepMergeMap_no_error {} rfl dst R
  rcases hR2 : mergo.deepMergeMap {} dst R with ⟨R2, err2⟩
  rw [hR2] at h2
  simp only at h2
  subst h2
  exact ⟨R2, rfl⟩

/-- Counterexample to C7: the handler of `c-user` contributes a string under `user`, the
handler of `f-users` then contributes a list under the same name; the variable merge
returns an error, `runHandler` returns it, and `buildServiceContext` nevertheless returns
a context, with no error. -/
theorem buildServiceContext_ok_despite_merge_error :
    mergo.Merge [("user", .str "u")] [("user", .list [.str "x"])]
        [mergo.WithAppendSlice, mergo.WithOverride] =
      ([("user", .str "u")],
        some (.mergeFailed "cannot append two slices with different type")) ∧
    runHandler (Example.cluster fun _ => [("c-user", .str "u"), ("f-users", .str "x")])
        (Example.db [("c-user", .str "u"), ("f-users", .str "x")])
        (Example.db [("c-user", .str "u"), ("f-users", .str "x")])
        "f-users" "x" [("user", .str "u")] =
      ((Example.db [("c-user", .str "u"), ("f-users", .str "x")], [("user", .str "u")]),
        some (.mergeFailed "cannot append two slices with different type")) ∧
    buildServiceContext (Example.cluster fun _ => [("c-user", .str "u"), ("f-users", .str "x")])
        "ns" ⟨"example.org", "v1", "Plain"⟩ "db1" "" false none =
      .ok { service := Example.db [("c-user", .str "u"), ("f-users", .str "x")],
            envVars := [("user", .str "u")],
            namingTemplate := "", bindAsFiles := false, id := none } :=
  ⟨rfl, rfl, rfl⟩

/-- C7, amended: the object-patch merge has no failing case on documents; when the
variable merge returns an error while an annotation is processed, `runHandler` returns
that error, with the object patch already applied and the variables as the merge left
them; `buildServiceContext` only logs what `runHandler` returns and goes on with the next
key, so once its lookups succeed it returns a ServiceContext, built from the objects the
loop over all keys leaves, and no error. -/
theorem buildServiceContext_survives_merge_error (c : Cluster CRDDescription)
    (ns : String) (gvk : GroupVersionKind) (gvr : GroupVersionResource) (name nt : String)
    (baf : Bool) (id : Option String) (obj : Unstructured) (anns : List (String × String))
    (hgvr : c.ResourceForKind gvk = .ok gvr) (hobj : c.findService ns gvr name = .ok obj)
    (hanns : collectAnnotations c ns gvk gvr obj = .ok anns) :
    buildServiceContext c ns gvk name nt baf id =
      .ok { service := ((sortedKeys anns).foldl
              (fun st k => (runHandler c obj st.1 k ((getKey anns k).getD "") st.2).1)
              (obj, [])).1,
            envVars := ((sortedKeys anns).foldl
              (fun st k => (runHandler c obj st.1 k ((getKey anns k).getD "") st.2).1)
              (obj, [])).2,
            namingTemplate := nt, bindAsFiles := baf, id := id } ∧
    (∀ (out : Unstructured) (key value : String) (env env' : Doc) (h : SpecHandler)
        (r : HandlerResult) (e : Err),
      c.NewSpecHandler key value obj = .ok h → h.Handle = .ok r →
      mergo.Merge env r.Data [mergo.WithAppendSlice, mergo.WithOverride] = (env', some e) →
      ∃ newObj, merge out.Object r.RawData = .ok newObj ∧
        runHandler c obj out key value env = (({ Object := newObj }, env'), some e)) ∧
    (∀ dst src : Doc, ∃ m, merge dst src = .ok m) := by
  refine ⟨buildServiceContext_of_annotations c ns gvk gvr name nt baf id obj anns hgvr hobj hanns,
    ?_, merge_total⟩
  intro out key value env env' h r e hh hr hm
  obtain ⟨newObj, hnew⟩ := merge_total out.Object r.RawData
  refine ⟨newObj, hnew, ?_⟩
  simp only [runHandler, hh, hr, hnew, hm]

/-- Witness of C7 as amended: the cluster of the counterexample. -/
theorem buildServiceContext_survives_merge_error_witness :
    ∃ newObj, merge (Example.db []).Object [] = .ok newObj ∧
      runHandler (Example.cluster fun _ => [("c-user", .str "u"), ("f-users", .str "x")])
          (Example.db [("c-user", .str "u"), ("f-users", .str "x")]) (Example.db [])
          "f-users" "x" [("user", .str "u")] =
        (({ Object := newObj }, [("user", .str "u")]),
          some (.mergeFailed "cannot append two slices with different type")) :=
  (buildServiceContext_survives_merge_error
    (Example.cluster fun _ => [("c-user", .str "u"), ("f-users", .str "x")])
    "ns" ⟨"example.org", "v1", "Plain"⟩ ⟨"example.org", "v1", "Plain"⟩ "db1" "" false none
    (Example.db [("c-user", .str "u"), ("f-users", .str "x")])
    [("c-user", "u"), ("f-users", "x")] rfl rfl rfl).2.1
    (Example.db []) "f-users" "x" [("user", .str "u")] [("user", .str "u")]
    { Handle := .ok { RawData := [], Data := [("user", .list [.str "x"])] } }
    { RawData := [], Data := [("user", .list [.str "x"])] }
    (.mergeFailed "cannot append two slices with different type") rfl rfl rfl

/-- Witness of C5 as amended: a patch of the status and of the user of the example, on a
document that also holds a null note. -/
theorem merge_union_witness :
    ∃ m, merge (("note", .null) :: (Example.db []).Object)
          [("status", .obj [("seen", .bool true)]), ("spec", .obj [("user", .str "")])] =
        .ok m ∧
      (∃ mf, (Value.obj m).getPath ["spec"] = some (.obj mf) ∧
        UnionLevel [("user", .str "root")] [("user", .str "")] mf) ∧
      getKey m "note" = none := by
  obtain ⟨m, h, hall, hnull⟩ := merge_union (("note", .null) :: (Example.db []).Object)
    [("status", .obj [("seen", .bool true)]), ("spec", .obj [("user", .str "")])]
    (by decide) (by decide)
  exact ⟨m, h, hall ["spec"] _ _ rfl rfl, hnull "note" rfl rfl⟩

end controllers
